import Mathlib

/-!
# MSP protocol engine of btflcli (`src/msp/msp.go`)

A shallow embedding of the frame codec, the checksum functions and the payload
marshaler, with theorems about them.

Conventions of the embedding.

* A Go `byte` is a `Nat` below 256, a `uint16` a `Nat` below 65536 and a `uint32`
  a `Nat` below 2^32.  Operations that can overflow carry an explicit `%`.
* The serial port (`go.bug.st/serial`, an external library) is a `Port`: the
  bytes the device will still deliver, and a schedule that says how many bytes
  each coming call of `Read` returns at most.  A serial `Read` may return before
  its buffer is full; the schedule makes every such behaviour a possible input.
* Stateful methods return their result together with the new state.
-/

namespace Msp

/-! ## Errors and results -/

/-- The error values the engine can return.  `EOF` and `ErrUnexpectedEOF` are the
two `io` errors of the transport; the two `fmt.Errorf` errors of the header checks
keep the offending byte; `mspChecksumErr` and `mspOOBErr` are the structs of the
same name. -/
inductive MSPError where
  | EOF
  | ErrUnexpectedEOF
  | invalidDirection (b : Nat)
  | unknownChar (b : Nat)
  | mspChecksumErr (code : Nat) (payload : List Nat) (checksum : Nat) (expectedChecksum : Nat)
  | mspOOBErr (b : Nat)
  deriving DecidableEq, Repr

/-- Outcome of a call: the Go pair `(value, nil)`, the pair `(nil, err)`, or a
run-time panic. -/
inductive Result (α : Type) where
  | ok (a : α)
  | error (e : MSPError)
  | panic
  deriving DecidableEq, Repr

/-- The Go struct `MSPFrame`. -/
structure MSPFrame where
  Code : Nat
  Payload : List Nat
  payloadPos : Nat
  deriving DecidableEq, Repr

/-- An open serial port.  `pending` holds the bytes the device will still deliver,
in order.  `chunks` is the read schedule: its head is the largest number of bytes
the next call of `Read` returns (at least one byte is returned whenever one is
pending), its tail is the schedule of the calls after that.  Once the schedule
has run out every call fills its buffer as far as the pending bytes go. -/
structure Port where
  pending : List Nat
  chunks : List Nat
  deriving DecidableEq, Repr

/-- The Go struct `MSP`.  `Port` is `none` for the nil interface value and
`some p` for an open port in the state `p`. -/
structure MSP where
  portName : String
  baudRate : Int
  Port : Option Port
  deriving DecidableEq, Repr

/-! ## The transport -/

/-- One call `port.Read(buf)`.  With nothing pending it fails with `io.EOF` and
leaves `buf` alone.  Otherwise it copies to the front of `buf` as many pending
bytes as the schedule allows and as fit, at least one.  Returns the error (if
any), the count `n`, the new contents of `buf` and the new state of the port. -/
def Port.Read (port : Port) (buf : List Nat) : Option MSPError × Nat × List Nat × Port :=
  if port.pending = [] then (some MSPError.EOF, 0, buf, port)
  else
    let limit : Nat :=
      match port.chunks with
      | [] => buf.length
      | c :: _ => max c 1
    let got := port.pending.take (min limit buf.length)
    (none, got.length, got ++ buf.drop got.length,
      { pending := port.pending.drop got.length, chunks := port.chunks.tail })

/-- The loop of `io.ReadFull`: call `Read` on the unfilled rest of the buffer
until `need` more bytes have arrived or `Read` fails.  `acc` holds the bytes read
so far.  An error with nothing read is passed on (`io.EOF`); after a partial read
it becomes `io.ErrUnexpectedEOF`.  Every successful call returns at least one
byte, so `fuel = need` rounds are enough. -/
def ReadFullLoop : Nat → Port → List Nat → Nat → Option MSPError × List Nat × Port
  | 0, port, acc, need => (none, acc ++ List.replicate need 0, port)
  | fuel + 1, port, acc, need =>
    if need = 0 then (none, acc, port)
    else
      match Port.Read port (List.replicate need 0) with
      | (some _, _, _, port1) =>
        (some (if acc = [] then MSPError.EOF else MSPError.ErrUnexpectedEOF),
          acc ++ List.replicate need 0, port1)
      | (none, n, buf, port1) => ReadFullLoop fuel port1 (acc ++ buf.take n) (need - n)

/-- The call `io.ReadFull(port, buf)` for a zero-filled `buf` of length `n`: the
error (if any), the contents of `buf` and the new state of the port. -/
def ReadFull (port : Port) (n : Nat) : Option MSPError × List Nat × Port :=
  ReadFullLoop n port [] n

/-- The next call of `Read` with a buffer of `n` bytes will not return short: the
schedule has run out or its head allows `n` bytes. -/
def nextReadFills (chunks : List Nat) (n : Nat) : Bool :=
  match chunks with
  | [] => true
  | c :: _ => decide (n ≤ c)

/-! ## V1 frames -/

/-- The loop `for _, v := range bs { crc ^= v }`. -/
def xorBytes (crc : Nat) (bs : List Nat) : Nat :=
  bs.foldl (fun acc v => acc ^^^ v) crc

/-- The Go function `mspV1Encode`.  The three marker bytes are
`'$'` = 36, `'M'` = 77 and `'<'` = 60. -/
def mspV1Encode (cmd : Nat) (data : List Nat) : List Nat :=
  let payloadLength : Nat := if data.length > 0 then data.length % 256 else 0
  let buf : List Nat :=
    [36, 77, 60, payloadLength, cmd] ++ (if payloadLength > 0 then data else [])
  let crc := xorBytes 0 (buf.drop 3)
  buf ++ [crc]

/-- The Go method `MSP.readMSPV1Frame`.  `'<'` = 60 and `'>'` = 62.  The header
is read with one call of `m.Port.Read` whose count is discarded, the payload with
`io.ReadFull`. -/
def readMSPV1Frame (m : MSP) : Result MSPFrame × MSP :=
  match m.Port with
  | none => (Result.panic, m)
  | some port =>
    match Port.Read port [0, 0, 0] with
    | (some err, _, _, port1) => (Result.error err, { m with Port := some port1 })
    | (none, _, buf, port1) =>
      if buf.getD 0 0 ≠ 60 ∧ buf.getD 0 0 ≠ 62 then
        (Result.error (MSPError.invalidDirection (buf.getD 0 0)), { m with Port := some port1 })
      else
        let ccrc := (0 ^^^ buf.getD 1 0) ^^^ buf.getD 2 0
        let payloadLength := buf.getD 1 0
        let cmd := buf.getD 2 0
        match (if payloadLength > 0 then ReadFull port1 payloadLength else (none, [], port1)) with
        | (some err, _, port2) => (Result.error err, { m with Port := some port2 })
        | (none, payload, port2) =>
          let ccrc := xorBytes ccrc payload
          match Port.Read port2 (buf.take 1) with
          | (some err, _, _, port3) => (Result.error err, { m with Port := some port3 })
          | (none, _, buf1, port3) =>
            let crc := buf1.getD 0 0
            if crc ≠ ccrc then
              (Result.error (MSPError.mspChecksumErr cmd payload crc ccrc),
                { m with Port := some port3 })
            else
              (Result.ok { Code := cmd, Payload := payload, payloadPos := 0 },
                { m with Port := some port3 })

/-- The Go method `MSP.readMSPV2Frame`.  The header is read with one call of
`m.Port.Read` whose count is discarded, the payload with `io.ReadFull`. -/
def readMSPV2Frame (m : MSP) : Result MSPFrame × MSP :=
  match m.Port with
  | none => (Result.panic, m)
  | some port =>
    match Port.Read port [0, 0, 0, 0, 0, 0] with
    | (some err, _, _, port1) => (Result.error err, { m with Port := some port1 })
    | (none, _, buf, port1) =>
      if buf.getD 0 0 ≠ 60 ∧ buf.getD 0 0 ≠ 62 then
        (Result.error (MSPError.invalidDirection (buf.getD 0 0)), { m with Port := some port1 })
      else
        let code := (buf.getD 2 0 ||| ((buf.getD 3 0 <<< 8) % 65536)) % 65536
        let payloadLength := (buf.getD 4 0 ||| ((buf.getD 5 0 <<< 8) % 65536)) % 65536
        match (if payloadLength > 0 then ReadFull port1 payloadLength else (none, [], port1)) with
        | (some err, _, port2) => (Result.error err, { m with Port := some port2 })
        | (none, payload, port2) =>
          match Port.Read port2 [0] with
          | (some err, _, _, port3) => (Result.error err, { m with Port := some port3 })
          | (none, _, _, port3) =>
            (Result.ok { Code := code, Payload := payload, payloadPos := 0 },
              { m with Port := some port3 })

/-- The Go method `MSP.ReadFrame`.  `'$'` = 36, `'M'` = 77 and `'X'` = 88.  The
`for` loop of the source runs its body once: it either breaks or returns. -/
def ReadFrame (m : MSP) : Result MSPFrame × MSP :=
  match m.Port with
  | none => (Result.error MSPError.EOF, m)
  | some port =>
    match Port.Read port [0] with
    | (some err, _, _, port1) => (Result.error err, { m with Port := some port1 })
    | (none, _, buf, port1) =>
      if buf.getD 0 0 = 36 then
        match Port.Read port1 buf with
        | (some err, _, _, port2) => (Result.error err, { m with Port := some port2 })
        | (none, _, buf2, port2) =>
          if buf2.getD 0 0 = 77 then readMSPV1Frame { m with Port := some port2 }
          else if buf2.getD 0 0 = 88 then readMSPV2Frame { m with Port := some port2 }
          else (Result.error (MSPError.unknownChar (buf2.getD 0 0)), { m with Port := some port2 })
      else
        (Result.error (MSPError.mspOOBErr (buf.getD 0 0)), { m with Port := some port1 })

/-! ## CRC-8/DVB-S2 -/

/-- The body of the loop of `crc8DvbS2`: one shift-and-conditional-xor step on
the byte `crc`. -/
def crc8Step (crc : Nat) : Nat :=
  if crc &&& 0x80 ≠ 0 then ((crc <<< 1) % 256) ^^^ 0xD5 else (crc <<< 1) % 256

/-- The loop `for ii := 0; ii < 8; ii++` of `crc8DvbS2`, with `n` rounds to go. -/
def crc8Loop : Nat → Nat → Nat
  | 0, crc => crc
  | n + 1, crc => crc8Loop n (crc8Step crc)

/-- The Go function `crc8DvbS2`. -/
def crc8DvbS2 (crc a : Nat) : Nat :=
  crc8Loop 8 (crc ^^^ a)

/-- The loop `for _, v := range bs { crc = crc8DvbS2(crc, v) }` from 0, as
`mspV2Encode` runs it. -/
def crc8Bytes (bs : List Nat) : Nat :=
  bs.foldl crc8DvbS2 0

/-! ### Reference definitions of CRC-8/DVB-S2

These follow the specification, not the source: the published lookup table, the
rule that generates it, and division of polynomials over GF(2), first as long
division on coefficient lists and then in Mathlib's polynomial ring. -/

/-- Reference: the 256-entry lookup table of CRC-8 with polynomial `0xD5`. -/
def crc8RefTable : List Nat :=
  [
    0x00, 0xD5, 0x7F, 0xAA, 0xFE, 0x2B, 0x81, 0x54, 0x29, 0xFC, 0x56, 0x83, 0xD7, 0x02, 0xA8, 0x7D,
    0x52, 0x87, 0x2D, 0xF8, 0xAC, 0x79, 0xD3, 0x06, 0x7B, 0xAE, 0x04, 0xD1, 0x85, 0x50, 0xFA, 0x2F,
    0xA4, 0x71, 0xDB, 0x0E, 0x5A, 0x8F, 0x25, 0xF0, 0x8D, 0x58, 0xF2, 0x27, 0x73, 0xA6, 0x0C, 0xD9,
    0xF6, 0x23, 0x89, 0x5C, 0x08, 0xDD, 0x77, 0xA2, 0xDF, 0x0A, 0xA0, 0x75, 0x21, 0xF4, 0x5E, 0x8B,
    0x9D, 0x48, 0xE2, 0x37, 0x63, 0xB6, 0x1C, 0xC9, 0xB4, 0x61, 0xCB, 0x1E, 0x4A, 0x9F, 0x35, 0xE0,
    0xCF, 0x1A, 0xB0, 0x65, 0x31, 0xE4, 0x4E, 0x9B, 0xE6, 0x33, 0x99, 0x4C, 0x18, 0xCD, 0x67, 0xB2,
    0x39, 0xEC, 0x46, 0x93, 0xC7, 0x12, 0xB8, 0x6D, 0x10, 0xC5, 0x6F, 0xBA, 0xEE, 0x3B, 0x91, 0x44,
    0x6B, 0xBE, 0x14, 0xC1, 0x95, 0x40, 0xEA, 0x3F, 0x42, 0x97, 0x3D, 0xE8, 0xBC, 0x69, 0xC3, 0x16,
    0xEF, 0x3A, 0x90, 0x45, 0x11, 0xC4, 0x6E, 0xBB, 0xC6, 0x13, 0xB9, 0x6C, 0x38, 0xED, 0x47, 0x92,
    0xBD, 0x68, 0xC2, 0x17, 0x43, 0x96, 0x3C, 0xE9, 0x94, 0x41, 0xEB, 0x3E, 0x6A, 0xBF, 0x15, 0xC0,
    0x4B, 0x9E, 0x34, 0xE1, 0xB5, 0x60, 0xCA, 0x1F, 0x62, 0xB7, 0x1D, 0xC8, 0x9C, 0x49, 0xE3, 0x36,
    0x19, 0xCC, 0x66, 0xB3, 0xE7, 0x32, 0x98, 0x4D, 0x30, 0xE5, 0x4F, 0x9A, 0xCE, 0x1B, 0xB1, 0x64,
    0x72, 0xA7, 0x0D, 0xD8, 0x8C, 0x59, 0xF3, 0x26, 0x5B, 0x8E, 0x24, 0xF1, 0xA5, 0x70, 0xDA, 0x0F,
    0x20, 0xF5, 0x5F, 0x8A, 0xDE, 0x0B, 0xA1, 0x74, 0x09, 0xDC, 0x76, 0xA3, 0xF7, 0x22, 0x88, 0x5D,
    0xD6, 0x03, 0xA9, 0x7C, 0x28, 0xFD, 0x57, 0x82, 0xFF, 0x2A, 0x80, 0x55, 0x01, 0xD4, 0x7E, 0xAB,
    0x84, 0x51, 0xFB, 0x2E, 0x7A, 0xAF, 0x05, 0xD0, 0xAD, 0x78, 0xD2, 0x07, 0x53, 0x86, 0x2C, 0xF9
  ]

/-- Reference: the table-driven CRC, `crc' = table[crc XOR byte]`, from 0. -/
def crc8TableDriven (bs : List Nat) : Nat :=
  bs.foldl (fun crc b => crc8RefTable.getD (crc ^^^ b) 0) 0

/-- Reference: one shift-and-conditional-xor step on a byte, in arithmetic: drop
the top bit, double, and subtract (XOR) the polynomial when the top bit was set. -/
def refShiftXor (v : Nat) : Nat :=
  if 128 ≤ v then (2 * (v - 128)) ^^^ 0xD5 else 2 * v

/-- Reference: the rule for table entry `i`, eight such steps applied to `i`. -/
def refTableEntry (i : Nat) : Nat :=
  refShiftXor (refShiftXor (refShiftXor (refShiftXor (refShiftXor (refShiftXor
    (refShiftXor (refShiftXor i)))))))

/-- The generator polynomial `x^8 + x^7 + x^6 + x^4 + x^2 + 1` as a bit mask:
bit `k` is the coefficient of `x^k`. -/
def crc8Generator : Nat := 0x1D5

/-- Reference: one step of long division by the generator over GF(2).  `r` is the
remainder so far (degree below 8); bring down the next coefficient and, when the
term `x^8` appears, subtract (XOR) the generator. -/
def polyDivStep (r : Nat) (coeff : Bool) : Nat :=
  let r1 := 2 * r + (if coeff then 1 else 0)
  if r1 / 256 % 2 = 1 then r1 ^^^ crc8Generator else r1

/-- Reference: the remainder modulo the generator of the GF(2) polynomial whose
coefficients, highest degree first, are `coeffs`. -/
def polyRem (coeffs : List Bool) : Nat :=
  coeffs.foldl polyDivStep 0

/-- The eight coefficients a byte contributes, most significant bit first. -/
def byteCoeffs (a : Nat) : List Bool :=
  [a / 128 % 2 = 1, a / 64 % 2 = 1, a / 32 % 2 = 1, a / 16 % 2 = 1,
   a / 8 % 2 = 1, a / 4 % 2 = 1, a / 2 % 2 = 1, a % 2 = 1]

/-- The message polynomial `b(x)` of a byte sequence: its bits in order, each byte
most significant bit first. -/
def msgCoeffs : List Nat → List Bool
  | [] => []
  | a :: bs => byteCoeffs a ++ msgCoeffs bs

/-- The value, as a bit mask, of the GF(2) polynomial with the coefficients
`coeffs`, highest degree first. -/
def polyOfCoeffs (coeffs : List Bool) : Nat :=
  coeffs.foldl (fun acc c => 2 * acc + (if c then 1 else 0)) 0

/-- Reference: the value at `x`, in any semiring, of the polynomial with the
coefficients `coeffs` (highest degree first), by Horner's rule.  At
`x = Polynomial.X` over `ZMod 2` it is the polynomial over GF(2) itself. -/
def coeffEval {R : Type} [Semiring R] (x : R) (coeffs : List Bool) : R :=
  coeffs.foldl (fun acc c => acc * x + (if c then 1 else 0)) 0

/-- Reference: the generator `x^8 + x^7 + x^6 + x^4 + x^2 + 1` at `x`. -/
def crc8GeneratorAt {R : Type} [Semiring R] (x : R) : R :=
  x ^ 8 + x ^ 7 + x ^ 6 + x ^ 4 + x ^ 2 + 1

/-- The value at `x` of the polynomial whose coefficient of `x^k`, for `k ≤ 8`,
is bit `k` of the bit mask `n`. -/
def maskEval {R : Type} [Semiring R] (x : R) (n : Nat) : R :=
  Finset.sum (Finset.range 9) (fun k => if n.testBit k then x ^ k else 0)

/-! ## The payload marshaler -/

/-- The values the marshaler handles: the three unsigned integers, structs of
such values (fields in declaration order) and slices of such values.  Values of
any other Go kind (arrays, strings, signed integers, maps) make `encodeArgs` and
`Read` panic in the source and have no constructor here. -/
inductive Value where
  | uint8 (x : Nat)
  | uint16 (x : Nat)
  | uint32 (x : Nat)
  | struct (fields : List Value)
  | slice (elems : List Value)
  deriving Repr

/-- An `interface{}` argument: it holds a value or a pointer to a value. -/
inductive Arg where
  | val (v : Value)
  | ptr (v : Value)
  deriving Repr

/-- The Go method `MSPFrame.BytesRemaining`. -/
def MSPFrame.BytesRemaining (f : MSPFrame) : Int :=
  (f.Payload.length : Int) - (f.payloadPos : Int)

mutual
/-- The call `f.Read(&v)` of the Go method `MSPFrame.Read` on a pointer to `v`:
the cases `*uint8`, `*uint16`, `*uint32`, pointer to struct, and the panic for a
pointer to anything else.  Returns the error, the frame and the new `v`. -/
def MSPFrame.readPtr (f : MSPFrame) : Value → Result Unit × MSPFrame × Value
  | Value.uint8 x =>
    if f.BytesRemaining < 1 then (Result.error MSPError.EOF, f, Value.uint8 x)
    else
      (Result.ok (), { f with payloadPos := f.payloadPos + 1 },
        Value.uint8 (f.Payload.getD f.payloadPos 0))
  | Value.uint16 x =>
    if f.BytesRemaining < 2 then (Result.error MSPError.EOF, f, Value.uint16 x)
    else
      (Result.ok (), { f with payloadPos := f.payloadPos + 2 },
        Value.uint16 (f.Payload.getD f.payloadPos 0
          + 256 * f.Payload.getD (f.payloadPos + 1) 0))
  | Value.uint32 x =>
    if f.BytesRemaining < 4 then (Result.error MSPError.EOF, f, Value.uint32 x)
    else
      (Result.ok (), { f with payloadPos := f.payloadPos + 4 },
        Value.uint32 (f.Payload.getD f.payloadPos 0
          + 256 * f.Payload.getD (f.payloadPos + 1) 0
          + 65536 * f.Payload.getD (f.payloadPos + 2) 0
          + 16777216 * f.Payload.getD (f.payloadPos + 3) 0))
  | Value.struct fields =>
    match MSPFrame.readEach f fields with
    | (r, f1, fields1) => (r, f1, Value.struct fields1)
  | Value.slice elems => (Result.panic, f, Value.slice elems)
/-- The two loops of `MSPFrame.Read`, over the fields of a struct and over the
elements of a slice: read into each part in turn, stop at the first failure. -/
def MSPFrame.readEach (f : MSPFrame) : List Value → Result Unit × MSPFrame × List Value
  | [] => (Result.ok (), f, [])
  | v :: vs =>
    match MSPFrame.readPtr f v with
    | (Result.ok _, f1, v1) =>
      match MSPFrame.readEach f1 vs with
      | (r, f2, vs1) => (r, f2, v1 :: vs1)
    | (r, f1, v1) => (r, f1, v1 :: vs)
end

/-- The Go method `MSPFrame.Read`: `out` is a pointer or a slice; any other
argument panics. -/
def MSPFrame.Read (f : MSPFrame) : Arg → Result Unit × MSPFrame × Arg
  | Arg.ptr v =>
    match MSPFrame.readPtr f v with
    | (r, f1, v1) => (r, f1, Arg.ptr v1)
  | Arg.val (Value.slice elems) =>
    match MSPFrame.readEach f elems with
    | (r, f1, elems1) => (r, f1, Arg.val (Value.slice elems1))
  | Arg.val v => (Result.panic, f, Arg.val v)

mutual
/-- The call `m.encodeArgs(w, v)` with the single argument `v`: the bytes the
buffer `w` holds afterwards.  Integers go out little-endian. -/
def encodeValue (w : List Nat) : Value → List Nat
  | Value.uint8 x => w ++ [x]
  | Value.uint16 x => w ++ [x % 256, x / 256 % 256]
  | Value.uint32 x => w ++ [x % 256, x / 256 % 256, x / 65536 % 256, x / 16777216 % 256]
  | Value.struct fields => encodeEach w fields
  | Value.slice elems => encodeEach w elems
/-- The two loops of `encodeArgs`, over the elements of a slice and over the
fields of a struct. -/
def encodeEach (w : List Nat) : List Value → List Nat
  | [] => w
  | v :: vs => encodeEach (encodeValue w v) vs
end

/-- The Go method `MSP.encodeArgs`: the error and the contents of the buffer `w`
afterwards.  A slice or struct argument ends the call (`return nil` inside the
loop over `args`); a pointer argument panics. -/
def encodeArgs (w : List Nat) : List Arg → Result Unit × List Nat
  | [] => (Result.ok (), w)
  | Arg.val (Value.uint8 x) :: args => encodeArgs (encodeValue w (Value.uint8 x)) args
  | Arg.val (Value.uint16 x) :: args => encodeArgs (encodeValue w (Value.uint16 x)) args
  | Arg.val (Value.uint32 x) :: args => encodeArgs (encodeValue w (Value.uint32 x)) args
  | Arg.val (Value.slice elems) :: _ => (Result.ok (), encodeValue w (Value.slice elems))
  | Arg.val (Value.struct fields) :: _ => (Result.ok (), encodeValue w (Value.struct fields))
  | Arg.ptr _ :: _ => (Result.panic, w)

/-- Encode `src` with `encodeArgs` into an empty buffer, put the bytes into a
fresh frame (cursor 0) and `Read` them into `dst`: the error of `encodeArgs`, the
error of `Read`, the destination afterwards and `BytesRemaining()` afterwards. -/
def marshalThenRead (code : Nat) (src dst : Arg) : Result Unit × Result Unit × Arg × Int :=
  let enc := encodeArgs [] [src]
  let f : MSPFrame := { Code := code, Payload := enc.2, payloadPos := 0 }
  let rd := f.Read dst
  (enc.1, rd.1, rd.2.2, rd.2.1.BytesRemaining)

/-- An open session on a port that will deliver the bytes `s` and whose reads
never return short. -/
def openOn (s : List Nat) : MSP :=
  { portName := "", baudRate := 115200, Port := some { pending := s, chunks := [] } }

/-- An open session on a port that will deliver the bytes `s` with the read
schedule `chunks`. -/
def openChunked (s : List Nat) (chunks : List Nat) : MSP :=
  { portName := "", baudRate := 115200, Port := some { pending := s, chunks := chunks } }

/-! ## Sending and closing -/

/-- The Go method `MSP.WriteCmd`: the returned count or error, the bytes handed
to `m.Port.Write`, and the session.  `byte(cmd)` keeps the low byte of the
command.  On an open port the write succeeds and returns the length of the
frame; on the nil port the method call panics. -/
def WriteCmd (m : MSP) (cmd : Nat) (args : List Arg) : Result Int × List Nat × MSP :=
  match encodeArgs [] args with
  | (Result.panic, _) => (Result.panic, [], m)
  | (Result.error e, _) => (Result.error e, [], m)
  | (Result.ok _, data) =>
    let frame := mspV1Encode (cmd % 256) data
    match m.Port with
    | none => (Result.panic, [], m)
    | some _ => (Result.ok (frame.length : Int), frame, m)

/-- The Go method `MSP.Close`.  `portCloseErr` is what `m.Port.Close()` of the
serial library returns; only a successful close sets `m.Port` to nil. -/
def Close (m : MSP) (portCloseErr : Option MSPError) : Option MSPError × MSP :=
  match m.Port with
  | none => (none, m)
  | some _ =>
    match portCloseErr with
    | none => (none, { m with Port := none })
    | some err => (some err, m)

/-! ## Shapes, sizes and the wire layout

The Go struct `MSPSerialConfig`, and reference definitions that follow the
specification of the marshaler: which shapes `Read` supports through a pointer,
how many bytes a shape takes, the bytes of a value and the value of some bytes. -/

/-- The Go struct `MSPSerialConfig` of `msp_types.go`. -/
structure MSPSerialConfig where
  Identifier : Nat
  FunctionMask : Nat
  MSPBaudRateIndex : Nat
  GPSBaudRateIndex : Nat
  TelemetryBaudRateIndex : Nat
  PeripheralBaudRateIndex : Nat
  deriving DecidableEq, Repr

/-- An `MSPSerialConfig` as a marshaler value: its fields in declaration order,
`FunctionMask` a `uint16` and the others `uint8`. -/
def MSPSerialConfig.toValue (c : MSPSerialConfig) : Value :=
  Value.struct [Value.uint8 c.Identifier, Value.uint16 c.FunctionMask,
    Value.uint8 c.MSPBaudRateIndex, Value.uint8 c.GPSBaudRateIndex,
    Value.uint8 c.TelemetryBaudRateIndex, Value.uint8 c.PeripheralBaudRateIndex]

mutual
/-- The shapes `Read` fills through a pointer without a panic: the three
integers and structs all of whose fields are such shapes. -/
def Value.readable : Value → Bool
  | Value.uint8 _ => true
  | Value.uint16 _ => true
  | Value.uint32 _ => true
  | Value.struct fields => Value.allReadable fields
  | Value.slice _ => false
/-- Every value of the list is `readable`. -/
def Value.allReadable : List Value → Bool
  | [] => true
  | v :: vs => Value.readable v && Value.allReadable vs
end

mutual
/-- Reference: the encoded size of a shape: 1, 2 and 4 bytes for the integers,
the sum of the parts for structs and slices. -/
def Value.encodedSize : Value → Nat
  | Value.uint8 _ => 1
  | Value.uint16 _ => 2
  | Value.uint32 _ => 4
  | Value.struct fields => Value.encodedSizes fields
  | Value.slice elems => Value.encodedSizes elems
/-- The sum of the encoded sizes of a list of shapes. -/
def Value.encodedSizes : List Value → Nat
  | [] => 0
  | v :: vs => Value.encodedSize v + Value.encodedSizes vs
end

mutual
/-- Reference: the wire layout of a value: integers least significant byte
first, the fields of a struct in declaration order, the elements of a slice in
index order. -/
def Value.wireBytes : Value → List Nat
  | Value.uint8 x => [x]
  | Value.uint16 x => [x % 256, x / 256 % 256]
  | Value.uint32 x => [x % 256, x / 256 % 256, x / 65536 % 256, x / 16777216 % 256]
  | Value.struct fields => Value.wireBytesEach fields
  | Value.slice elems => Value.wireBytesEach elems
/-- The wire layouts of the values of a list, one after the other. -/
def Value.wireBytesEach : List Value → List Nat
  | [] => []
  | v :: vs => Value.wireBytes v ++ Value.wireBytesEach vs
end

mutual
/-- Reference: the value of the shape of `v` that the bytes `bs` encode:
integers little-endian, the parts of a struct or slice in order, each from its
own stretch of `bs`. -/
def Value.fromBytes : Value → List Nat → Value
  | Value.uint8 _, bs => Value.uint8 (bs.getD 0 0)
  | Value.uint16 _, bs => Value.uint16 (bs.getD 0 0 + 256 * bs.getD 1 0)
  | Value.uint32 _, bs =>
    Value.uint32 (bs.getD 0 0 + 256 * bs.getD 1 0 + 65536 * bs.getD 2 0
      + 16777216 * bs.getD 3 0)
  | Value.struct fields, bs => Value.struct (Value.fromBytesEach fields bs)
  | Value.slice elems, bs => Value.slice (Value.fromBytesEach elems bs)
/-- The values of a list of shapes, taken in order from `bs`. -/
def Value.fromBytesEach : List Value → List Nat → List Value
  | [], _ => []
  | v :: vs, bs =>
    Value.fromBytes v (bs.take (Value.encodedSize v))
      :: Value.fromBytesEach vs (bs.drop (Value.encodedSize v))
end

/-- The part of the payload from the cursor on, `n` bytes long:
`Payload[pos .. pos+n)`. -/
def MSPFrame.window (f : MSPFrame) (n : Nat) : List Nat :=
  (f.Payload.drop f.payloadPos).take n

/-! ## Facts about the transport -/

/-- A read into a one-byte buffer returns the next pending byte, whatever the
schedule. -/
theorem Port.Read_one (b x : Nat) (s chunks : List Nat) :
    Port.Read { pending := b :: s, chunks := chunks } [x] =
      (none, 1, [b], { pending := s, chunks := chunks.tail }) := by
  cases chunks with
  | nil => simp [Port.Read]
  | cons c cs =>
    have h : min (max c 1) 1 = 1 := by omega
    simp [Port.Read, h]

theorem Port.Read_nil (buf chunks : List Nat) :
    Port.Read { pending := [], chunks := chunks } buf =
      (some MSPError.EOF, 0, buf, { pending := [], chunks := chunks }) := by
  simp [Port.Read]

/-- A read that does not return short takes as many pending bytes as fit. -/
theorem Port.Read_fill (pending chunks buf : List Nat) (hp : pending ≠ [])
    (hfill : nextReadFills chunks buf.length = true) :
    Port.Read { pending := pending, chunks := chunks } buf =
      (none, (pending.take buf.length).length,
        pending.take buf.length ++ buf.drop (pending.take buf.length).length,
        { pending := pending.drop (pending.take buf.length).length, chunks := chunks.tail }) := by
  cases chunks with
  | nil => simp [Port.Read, hp]
  | cons c cs =>
    have hc : buf.length ≤ c := by simpa [nextReadFills] using hfill
    have h : min (max c 1) buf.length = buf.length := by omega
    simp [Port.Read, hp, h]

theorem Port.Read_three (a b c : Nat) (s chunks : List Nat)
    (hfill : nextReadFills chunks 3 = true) :
    Port.Read { pending := a :: b :: c :: s, chunks := chunks } [0, 0, 0] =
      (none, 3, [a, b, c], { pending := s, chunks := chunks.tail }) := by
  rw [Port.Read_fill _ _ _ (by simp) (by simpa using hfill)]
  simp

theorem Port.Read_six (a b c d e f : Nat) (s chunks : List Nat)
    (hfill : nextReadFills chunks 6 = true) :
    Port.Read { pending := a :: b :: c :: d :: e :: f :: s, chunks := chunks }
        [0, 0, 0, 0, 0, 0] =
      (none, 6, [a, b, c, d, e, f], { pending := s, chunks := chunks.tail }) := by
  rw [Port.Read_fill _ _ _ (by simp) (by simpa using hfill)]
  simp

/-- Any successful read: it returns some `j` bytes, at least one, no more than
fit and no more than are pending. -/
theorem Port.Read_some (pending chunks buf : List Nat) (hp : pending ≠ []) (hb : buf ≠ []) :
    ∃ j, 1 ≤ j ∧ j ≤ buf.length ∧ j ≤ pending.length ∧
      Port.Read { pending := pending, chunks := chunks } buf =
        (none, j, pending.take j ++ buf.drop j,
          { pending := pending.drop j, chunks := chunks.tail }) := by
  have hpl : 1 ≤ pending.length := by
    cases pending with
    | nil => exact absurd rfl hp
    | cons a t => simp
  have hbl : 1 ≤ buf.length := by
    cases buf with
    | nil => exact absurd rfl hb
    | cons a t => simp
  cases chunks with
  | nil =>
    refine ⟨min buf.length pending.length, by omega, by omega, by omega, ?_⟩
    simp [Port.Read, hp, List.take_take, Nat.min_comm]
  | cons c cs =>
    refine ⟨min (min (max c 1) buf.length) pending.length, by omega, by omega, by omega, ?_⟩
    simp only [Port.Read, hp, if_false, List.length_take, List.tail_cons]
    have h1 : pending.take (min (min (max c 1) buf.length) pending.length) =
        pending.take (min (max c 1) buf.length) := by
      rw [← List.take_take]
      simp
    rw [h1]

/-- The loop of `io.ReadFull` with enough bytes pending: it delivers exactly the
next `need` bytes, whatever the schedule. -/
theorem ReadFullLoop_append (fuel : Nat) (q s chunks acc : List Nat)
    (hfuel : q.length ≤ fuel) :
    ∃ chunks1, ReadFullLoop fuel { pending := q ++ s, chunks := chunks } acc q.length =
      (none, acc ++ q, { pending := s, chunks := chunks1 }) := by
  induction fuel generalizing q chunks acc with
  | zero =>
    have hq : q = [] := List.eq_nil_of_length_eq_zero (by omega)
    subst hq
    exact ⟨chunks, by simp [ReadFullLoop]⟩
  | succ fuel ih =>
    cases q with
    | nil => exact ⟨chunks, by simp [ReadFullLoop]⟩
    | cons a q =>
      obtain ⟨j, hj1, hj2, _, hread⟩ := Port.Read_some ((a :: q) ++ s) chunks
        (List.replicate (a :: q).length 0) (by simp) (by simp)
      have hjq : j ≤ (a :: q).length := by simpa using hj2
      have htake : ((a :: q) ++ s).take j = (a :: q).take j := by
        rw [List.take_append_of_le_length hjq]
      have hdrop : ((a :: q) ++ s).drop j = (a :: q).drop j ++ s := by
        rw [List.drop_append_of_le_length hjq]
      have hlen : ((a :: q).drop j).length = (a :: q).length - j := by simp
      have hbuf : (((a :: q) ++ s).take j ++ (List.replicate (a :: q).length 0).drop j).take j =
          (a :: q).take j := by
        have hle : j ≤ ((a :: q).take j).length := by
          rw [List.length_take]; omega
        rw [htake, List.take_append_of_le_length hle]
        simp
      obtain ⟨chunks1, h1⟩ := ih ((a :: q).drop j) chunks.tail (acc ++ (a :: q).take j)
        (by rw [hlen]; omega)
      refine ⟨chunks1, ?_⟩
      have hne : (a :: q).length ≠ 0 := by simp
      rw [ReadFullLoop]
      simp only [hne, if_false, hread, hbuf, hdrop]
      rw [← hlen, h1, List.append_assoc, List.take_append_drop]

theorem ReadFull_append (p s chunks : List Nat) :
    ∃ chunks1, ReadFull { pending := p ++ s, chunks := chunks } p.length =
      (none, p, { pending := s, chunks := chunks1 }) := by
  obtain ⟨chunks1, h⟩ := ReadFullLoop_append p.length p s chunks [] (Nat.le_refl _)
  exact ⟨chunks1, by simpa [ReadFull] using h⟩

/-- The loop of `io.ReadFull` with too few bytes pending: it fails, with `io.EOF`
when nothing at all was read and with `io.ErrUnexpectedEOF` otherwise, and leaves
nothing pending. -/
theorem ReadFullLoop_short (fuel : Nat) (q chunks acc : List Nat) (need : Nat)
    (hneed : q.length < need) (hfuel : q.length < fuel) :
    ∃ buf chunks1, ReadFullLoop fuel { pending := q, chunks := chunks } acc need =
      (some (if acc = [] ∧ q = [] then MSPError.EOF else MSPError.ErrUnexpectedEOF), buf,
        { pending := [], chunks := chunks1 }) := by
  induction fuel generalizing q chunks acc need with
  | zero => omega
  | succ fuel ih =>
    have hne : need ≠ 0 := by omega
    cases q with
    | nil =>
      refine ⟨acc ++ List.replicate need 0, chunks, ?_⟩
      rw [ReadFullLoop]
      simp only [hne, if_false, Port.Read_nil, and_true]
    | cons a q =>
      obtain ⟨j, hj1, hj2, hj3, hread⟩ := Port.Read_some (a :: q) chunks
        (List.replicate need 0) (by simp) (by simp; omega)
      have hbuf : ((a :: q).take j ++ (List.replicate need 0).drop j).take j =
          (a :: q).take j := by
        have hle : j ≤ ((a :: q).take j).length := by
          rw [List.length_take]; omega
        rw [List.take_append_of_le_length hle]
        simp
      have hlen : ((a :: q).drop j).length = (a :: q).length - j := by simp
      obtain ⟨buf, chunks1, h1⟩ := ih ((a :: q).drop j) chunks.tail
        (acc ++ (a :: q).take j) (need - j) (by rw [hlen]; omega)
        (by rw [hlen]; omega)
      refine ⟨buf, chunks1, ?_⟩
      rw [ReadFullLoop]
      simp only [hne, if_false, hread, hbuf]
      rw [h1]
      have hacc : ¬ (acc ++ (a :: q).take j = []) := by
        cases j with
        | zero => omega
        | succ j => simp
      simp [hacc]

theorem ReadFull_short (q chunks : List Nat) (n : Nat) (hq : q ≠ []) (hlt : q.length < n) :
    ∃ buf chunks1, ReadFull { pending := q, chunks := chunks } n =
      (some MSPError.ErrUnexpectedEOF, buf, { pending := [], chunks := chunks1 }) := by
  obtain ⟨buf, chunks1, h⟩ := ReadFullLoop_short n q chunks [] n hlt hlt
  refine ⟨buf, chunks1, ?_⟩
  rw [ReadFull, h]
  simp [hq]

theorem xorBytes_cons (crc b : Nat) (bs : List Nat) :
    xorBytes crc (b :: bs) = xorBytes (crc ^^^ b) bs := rfl

theorem xorBytes_eq (crc : Nat) (bs : List Nat) :
    xorBytes crc bs = crc ^^^ xorBytes 0 bs := by
  induction bs generalizing crc with
  | nil => simp [xorBytes]
  | cons b bs ih =>
    show xorBytes (crc ^^^ b) bs = crc ^^^ xorBytes (0 ^^^ b) bs
    rw [ih (crc ^^^ b), ih (0 ^^^ b)]
    simp [Nat.xor_assoc]

/-- Overwriting one byte changes the running XOR by the old and the new byte. -/
theorem xorBytes_set (crc : Nat) (p : List Nat) (i v : Nat) (hi : i < p.length) :
    xorBytes crc (p.set i v) = (xorBytes crc p ^^^ p[i]) ^^^ v := by
  induction p generalizing crc i with
  | nil => simp at hi
  | cons a p ih =>
    cases i with
    | zero =>
      show xorBytes (crc ^^^ v) p = (xorBytes (crc ^^^ a) p ^^^ a) ^^^ v
      rw [xorBytes_eq (crc ^^^ v), xorBytes_eq (crc ^^^ a)]
      have : crc ^^^ a ^^^ xorBytes 0 p ^^^ a = crc ^^^ xorBytes 0 p := by
        rw [Nat.xor_assoc crc, Nat.xor_comm a, Nat.xor_assoc, Nat.xor_assoc, Nat.xor_self,
          Nat.xor_zero]
      rw [this, Nat.xor_assoc, Nat.xor_assoc, Nat.xor_comm v]
    | succ i =>
      have hi2 : i < p.length := by simpa using hi
      show xorBytes (crc ^^^ a) (p.set i v) = (xorBytes (crc ^^^ a) p ^^^ p[i]) ^^^ v
      exact ih (crc ^^^ a) i hi2

theorem xorBytes_set_ne (crc : Nat) (p : List Nat) (i v : Nat) (hi : i < p.length)
    (hv : v ≠ p[i]) : xorBytes crc p ≠ xorBytes crc (p.set i v) := by
  rw [xorBytes_set crc p i v hi]
  intro h
  apply hv
  have h2 : (xorBytes crc p ^^^ p[i]) ^^^ p[i] = (xorBytes crc p ^^^ p[i]) ^^^ v := by
    rw [← h, Nat.xor_assoc, Nat.xor_self, Nat.xor_zero]
  exact (Nat.xor_right_injective h2).symm

/-- Go's `uint16(lo) | uint16(hi)<<8` is `lo + 256 * hi` on bytes. -/
theorem le16 (lo hi : Nat) (hlo : lo < 256) (hhi : hi < 256) :
    (lo ||| ((hi <<< 8) % 65536)) % 65536 = lo + 256 * hi := by
  have h1 : hi <<< 8 = 2 ^ 8 * hi := by rw [Nat.shiftLeft_eq, Nat.mul_comm]
  have h2 : 2 ^ 8 * hi + lo = 2 ^ 8 * hi ||| lo := Nat.mul_add_lt_is_or (by omega) hi
  have h3 : 2 ^ 8 * hi % 65536 = 2 ^ 8 * hi := Nat.mod_eq_of_lt (by omega)
  rw [h1, h3, Nat.lor_comm, ← h2]
  omega


/-- What `readMSPV1Frame` does when the three header bytes arrive in one read and
the stream holds a direction byte, a length byte, a command byte, as many payload
bytes as the length byte says, and one more byte. -/
theorem readMSPV1Frame_stream (m : MSP) (d c t : Nat) (p rest chunks : List Nat)
    (hd : d = 60 ∨ d = 62) (hfill : nextReadFills chunks 3 = true) :
    ∃ chunks1,
      readMSPV1Frame
          { m with
            Port := some { pending := d :: p.length :: c :: (p ++ t :: rest), chunks := chunks } } =
        (if t = xorBytes 0 (p.length :: c :: p)
          then Result.ok { Code := c, Payload := p, payloadPos := 0 }
          else Result.error (MSPError.mspChecksumErr c p t (xorBytes 0 (p.length :: c :: p))),
         { m with Port := some { pending := rest, chunks := chunks1 } }) := by
  have hdir : ¬ (d ≠ 60 ∧ d ≠ 62) := by omega
  cases p with
  | nil =>
    refine ⟨chunks.tail.tail, ?_⟩
    simp only [readMSPV1Frame, Port.Read_three _ _ _ _ _ hfill, List.getD_cons_zero,
      List.getD_cons_succ, hdir, if_false, List.length_nil, gt_iff_lt, lt_self_iff_false,
      List.nil_append, List.take_succ_cons, List.take_zero, Port.Read_one, xorBytes_cons]
    split_ifs <;> simp_all
  | cons a p =>
    have hlen : (a :: p).length > 0 := by simp
    obtain ⟨chunks1, hfull⟩ := ReadFull_append (a :: p) (t :: rest) chunks.tail
    refine ⟨chunks1.tail, ?_⟩
    simp only [readMSPV1Frame, Port.Read_three _ _ _ _ _ hfill, List.getD_cons_zero,
      List.getD_cons_succ, hdir, if_false, hlen, if_true, hfull,
      List.take_succ_cons, List.take_zero, Port.Read_one, xorBytes_cons]
    split_ifs <;> simp_all

/-- A V1 frame whose payload stops early: the stream ends inside the payload. -/
theorem readMSPV1Frame_short (m : MSP) (d n c : Nat) (s chunks : List Nat)
    (hd : d = 60 ∨ d = 62) (hfill : nextReadFills chunks 3 = true)
    (hs : s ≠ []) (hlt : s.length < n) :
    ∃ chunks1,
      readMSPV1Frame { m with Port := some { pending := d :: n :: c :: s, chunks := chunks } } =
        (Result.error MSPError.ErrUnexpectedEOF,
          { m with Port := some { pending := [], chunks := chunks1 } }) := by
  have hdir : ¬ (d ≠ 60 ∧ d ≠ 62) := by omega
  have hn : n > 0 := by omega
  obtain ⟨buf, chunks1, hshort⟩ := ReadFull_short s chunks.tail n hs hlt
  refine ⟨chunks1, ?_⟩
  simp only [readMSPV1Frame, Port.Read_three _ _ _ _ _ hfill, List.getD_cons_zero,
    List.getD_cons_succ, hdir, if_false, hn, if_true, hshort]

/-- A V1 frame whose stream ends right after the payload: no checksum byte. -/
theorem readMSPV1Frame_noChecksum (m : MSP) (d n c : Nat) (s chunks : List Nat)
    (hd : d = 60 ∨ d = 62) (hfill : nextReadFills chunks 3 = true)
    (hn : n > 0) (hlen : s.length = n) :
    ∃ chunks1,
      readMSPV1Frame { m with Port := some { pending := d :: n :: c :: s, chunks := chunks } } =
        (Result.error MSPError.EOF,
          { m with Port := some { pending := [], chunks := chunks1 } }) := by
  have hdir : ¬ (d ≠ 60 ∧ d ≠ 62) := by omega
  obtain ⟨chunks1, hfull⟩ := ReadFull_append s [] chunks.tail
  rw [List.append_nil, hlen] at hfull
  refine ⟨chunks1, ?_⟩
  simp only [readMSPV1Frame, Port.Read_three _ _ _ _ _ hfill, List.getD_cons_zero,
    List.getD_cons_succ, hdir, if_false, hn, if_true, hfull, Port.Read_nil]

/-- What `readMSPV2Frame` does when the six header bytes arrive in one read. -/
theorem readMSPV2Frame_stream (m : MSP) (d flags cmd_lo cmd_hi len_lo len_hi t : Nat)
    (p rest chunks : List Nat) (hd : d = 60 ∨ d = 62)
    (hfill : nextReadFills chunks 6 = true)
    (hcl : cmd_lo < 256) (hch : cmd_hi < 256) (hll : len_lo < 256) (hlh : len_hi < 256)
    (hp : p.length = len_lo + 256 * len_hi) :
    ∃ chunks1,
      readMSPV2Frame
          { m with
            Port := some
              { pending := d :: flags :: cmd_lo :: cmd_hi :: len_lo :: len_hi :: (p ++ t :: rest),
                chunks := chunks } } =
        (Result.ok { Code := cmd_lo + 256 * cmd_hi, Payload := p, payloadPos := 0 },
          { m with Port := some { pending := rest, chunks := chunks1 } }) := by
  have hdir : ¬ (d ≠ 60 ∧ d ≠ 62) := by omega
  cases p with
  | nil =>
    refine ⟨chunks.tail.tail, ?_⟩
    simp only [readMSPV2Frame, Port.Read_six _ _ _ _ _ _ _ _ hfill, List.getD_cons_zero,
      List.getD_cons_succ, hdir, if_false, le16 cmd_lo cmd_hi hcl hch,
      le16 len_lo len_hi hll hlh, ← hp]
    simp [Port.Read_one]
  | cons a p =>
    have hlen : (a :: p).length > 0 := by simp
    obtain ⟨chunks1, hfull⟩ := ReadFull_append (a :: p) (t :: rest) chunks.tail
    refine ⟨chunks1.tail, ?_⟩
    simp only [readMSPV2Frame, Port.Read_six _ _ _ _ _ _ _ _ hfill, List.getD_cons_zero,
      List.getD_cons_succ, hdir, if_false, le16 cmd_lo cmd_hi hcl hch,
      le16 len_lo len_hi hll hlh, ← hp, hlen, if_true, hfull, Port.Read_one]

/-- The bytes `mspV1Encode` produces for a payload that fits the length byte. -/
theorem mspV1Encode_eq (c : Nat) (p : List Nat) (h : p.length ≤ 255) :
    mspV1Encode c p =
      36 :: 77 :: 60 :: p.length :: c :: (p ++ [xorBytes 0 (p.length :: c :: p)]) := by
  cases p with
  | nil => rfl
  | cons a p =>
    have h1 : (a :: p).length % 256 = (a :: p).length := Nat.mod_eq_of_lt (by omega)
    have h2 : (a :: p).length > 0 := by simp
    simp only [mspV1Encode, h1, h2, if_true]
    simp [xorBytes]

/-- After the two marker bytes `'$'`, `'M'` the V1 reader takes over. -/
theorem ReadFrame_V1 (m : MSP) (s chunks : List Nat) :
    ReadFrame { m with Port := some { pending := 36 :: 77 :: s, chunks := chunks } } =
      readMSPV1Frame { m with Port := some { pending := s, chunks := chunks.tail.tail } } := by
  simp [ReadFrame, Port.Read_one]

/-- After the two marker bytes `'$'`, `'X'` the V2 reader takes over. -/
theorem ReadFrame_V2 (m : MSP) (s chunks : List Nat) :
    ReadFrame { m with Port := some { pending := 36 :: 88 :: s, chunks := chunks } } =
      readMSPV2Frame { m with Port := some { pending := s, chunks := chunks.tail.tail } } := by
  simp [ReadFrame, Port.Read_one]

/-! ## Facts about CRC-8/DVB-S2 -/

set_option maxRecDepth 100000 in
theorem crc8Step_lt : ∀ x < 256, crc8Step x < 256 := by decide

set_option maxRecDepth 100000 in
/-- On a byte a division step is the shift step of the code, with the new
coefficient in bit 0. -/
theorem polyDivStep_eq : ∀ r < 256, ∀ c : Bool,
    polyDivStep r c = crc8Step r ^^^ (if c then 1 else 0) := by decide

set_option maxRecDepth 100000 in
theorem polyDivStep_lt : ∀ r < 256, ∀ c : Bool, polyDivStep r c < 256 := by decide

set_option maxRecDepth 100000 in
/-- The shift step is linear for XOR with a value that has no top bit. -/
theorem crc8Step_xor : ∀ x < 256, ∀ v < 128,
    crc8Step (x ^^^ v) = crc8Step x ^^^ (2 * v) := by decide

set_option maxRecDepth 100000 in
theorem crc8RefTable_eq_loop : ∀ i < 256, crc8RefTable.getD i 0 = crc8Loop 8 i := by decide

set_option maxRecDepth 100000 in
theorem crc8RefTable_eq_rule : ∀ i < 256, crc8RefTable.getD i 0 = refTableEntry i := by
  decide

set_option maxRecDepth 100000 in
theorem crc8RefTable_length : crc8RefTable.length = 256 := by decide

set_option maxRecDepth 100000 in
theorem polyOfCoeffs_byteCoeffs : ∀ a < 256, polyOfCoeffs (byteCoeffs a) = a := by decide

set_option maxRecDepth 100000 in
theorem crc8_check_value :
    [0x31, 0x32, 0x33, 0x34, 0x35, 0x36, 0x37, 0x38, 0x39].foldl crc8DvbS2 0 = 0xBC := by
  decide

theorem two_mul_xor_one (n : Nat) : (2 * n) ^^^ 1 = 2 * n + 1 := by
  have h := Nat.xor_bit false n true 0
  simpa [Nat.bit_val] using h

theorem two_mul_xor_coeff (n : Nat) (c : Bool) :
    (2 * n) ^^^ (if c then 1 else 0) = 2 * n + (if c then 1 else 0) := by
  cases c
  · simp
  · simpa using two_mul_xor_one n

theorem xor_lt_256 (x y : Nat) (hx : x < 256) (hy : y < 256) : x ^^^ y < 256 :=
  Nat.xor_lt_two_pow (n := 8) hx hy

theorem crc8Loop_succ (n crc : Nat) : crc8Loop (n + 1) crc = crc8Step (crc8Loop n crc) := by
  induction n generalizing crc with
  | zero => rfl
  | succ n ih =>
    show crc8Loop (n + 1) (crc8Step crc) = crc8Step (crc8Loop (n + 1) crc)
    rw [ih (crc8Step crc)]
    rfl

theorem crc8Loop_lt (n crc : Nat) (h : crc < 256) : crc8Loop n crc < 256 := by
  induction n generalizing crc with
  | zero => exact h
  | succ n ih => exact ih (crc8Step crc) (crc8Step_lt crc h)

theorem crc8DvbS2_lt (crc a : Nat) (hc : crc < 256) (ha : a < 256) : crc8DvbS2 crc a < 256 :=
  crc8Loop_lt 8 _ (xor_lt_256 crc a hc ha)

theorem foldl_crc8DvbS2_lt (bs : List Nat) (crc : Nat) (hc : crc < 256)
    (hbs : ∀ b ∈ bs, b < 256) : bs.foldl crc8DvbS2 crc < 256 := by
  induction bs generalizing crc with
  | nil => exact hc
  | cons a bs ih =>
    have ha : a < 256 := hbs a (List.mem_cons_self a bs)
    exact ih (crc8DvbS2 crc a) (crc8DvbS2_lt crc a hc ha)
      (fun b hb => hbs b (List.mem_cons_of_mem a hb))

/-- The table-driven loop and the loop of the code agree from any byte. -/
theorem foldl_table_eq (bs : List Nat) (crc : Nat) (hc : crc < 256)
    (hbs : ∀ b ∈ bs, b < 256) :
    bs.foldl crc8DvbS2 crc = bs.foldl (fun crc b => crc8RefTable.getD (crc ^^^ b) 0) crc := by
  induction bs generalizing crc with
  | nil => rfl
  | cons a bs ih =>
    have ha : a < 256 := hbs a (List.mem_cons_self a bs)
    have hstep : crc8RefTable.getD (crc ^^^ a) 0 = crc8DvbS2 crc a :=
      crc8RefTable_eq_loop (crc ^^^ a) (xor_lt_256 crc a hc ha)
    simp only [List.foldl_cons, hstep]
    exact ih (crc8DvbS2 crc a) (crc8DvbS2_lt crc a hc ha)
      (fun b hb => hbs b (List.mem_cons_of_mem a hb))

theorem polyOfCoeffs_append_one (cs : List Bool) (c : Bool) :
    polyOfCoeffs (cs ++ [c]) = 2 * polyOfCoeffs cs + (if c then 1 else 0) := by
  simp [polyOfCoeffs, List.foldl_append]

theorem polyOfCoeffs_lt (cs : List Bool) : polyOfCoeffs cs < 2 ^ cs.length := by
  induction cs using List.reverseRecOn with
  | nil => simp [polyOfCoeffs]
  | append_singleton cs c ih =>
    rw [polyOfCoeffs_append_one, List.length_append, List.length_singleton, pow_succ]
    cases c <;> simp <;> omega

/-- Long division from the remainder `r`, over at most eight coefficients: the
shift steps of the code on `r`, XOR the coefficients read as a number. -/
theorem foldl_polyDivStep (cs : List Bool) (r : Nat) (hr : r < 256) (hlen : cs.length ≤ 8) :
    cs.foldl polyDivStep r = crc8Loop cs.length r ^^^ polyOfCoeffs cs := by
  induction cs using List.reverseRecOn with
  | nil => simp [polyOfCoeffs, crc8Loop]
  | append_singleton cs c ih =>
    have hlen1 : cs.length ≤ 7 := by
      rw [List.length_append, List.length_singleton] at hlen; omega
    have hv : polyOfCoeffs cs < 128 :=
      lt_of_lt_of_le (polyOfCoeffs_lt cs)
        (by
          have : (2 : Nat) ^ cs.length ≤ 2 ^ 7 := Nat.pow_le_pow_right (by norm_num) hlen1
          simpa using this)
    have hx : crc8Loop cs.length r < 256 := crc8Loop_lt _ r hr
    have hs : crc8Loop cs.length r ^^^ polyOfCoeffs cs < 256 :=
      xor_lt_256 _ _ hx (by omega)
    rw [List.foldl_append, ih (by omega), List.foldl_cons, List.foldl_nil,
      polyDivStep_eq _ hs c, crc8Step_xor _ hx _ hv, List.length_append,
      List.length_singleton, crc8Loop_succ, polyOfCoeffs_append_one, Nat.xor_assoc,
      two_mul_xor_coeff]

theorem foldl_polyDivStep_lt (cs : List Bool) (r : Nat) (hr : r < 256) :
    cs.foldl polyDivStep r < 256 := by
  induction cs generalizing r with
  | nil => exact hr
  | cons c cs ih => exact ih (polyDivStep r c) (polyDivStep_lt r hr c)

/-- Dividing on through the eight coefficients of the byte `a` XORs `a` into the
shifted remainder. -/
theorem foldl_polyDivStep_byte (r a : Nat) (hr : r < 256) (ha : a < 256) :
    (byteCoeffs a).foldl polyDivStep r = crc8Loop 8 r ^^^ a := by
  have h := foldl_polyDivStep (byteCoeffs a) r hr (by simp [byteCoeffs])
  rw [polyOfCoeffs_byteCoeffs a ha] at h
  simpa [byteCoeffs] using h

theorem foldl_polyDivStep_zeros (r : Nat) (hr : r < 256) :
    (List.replicate 8 false).foldl polyDivStep r = crc8Loop 8 r := by
  have h := foldl_polyDivStep (List.replicate 8 false) r hr (by simp)
  have hz : polyOfCoeffs (List.replicate 8 false) = 0 := by decide
  rw [hz] at h
  simpa using h

/-- The loop of the code, started from the shifted remainder `r`, keeps pace with
long division over the message bits. -/
theorem foldl_crc8_polyDiv (bs : List Nat) (r : Nat) (hr : r < 256)
    (hbs : ∀ b ∈ bs, b < 256) :
    bs.foldl crc8DvbS2 (crc8Loop 8 r) = crc8Loop 8 ((msgCoeffs bs).foldl polyDivStep r) := by
  induction bs generalizing r with
  | nil => rfl
  | cons a bs ih =>
    have ha : a < 256 := hbs a (List.mem_cons_self a bs)
    have hr1 : (byteCoeffs a).foldl polyDivStep r < 256 := foldl_polyDivStep_lt _ r hr
    have hstep : crc8DvbS2 (crc8Loop 8 r) a =
        crc8Loop 8 ((byteCoeffs a).foldl polyDivStep r) := by
      rw [foldl_polyDivStep_byte r a hr ha]
      rfl
    rw [List.foldl_cons, hstep, ih _ hr1 (fun b hb => hbs b (List.mem_cons_of_mem a hb))]
    simp [msgCoeffs, List.foldl_append]

theorem crc8Bytes_eq_polyRem (bs : List Nat) (hbs : ∀ b ∈ bs, b < 256) :
    crc8Bytes bs = polyRem (msgCoeffs bs ++ List.replicate 8 false) := by
  have h0 : crc8Loop 8 0 = 0 := by decide
  have h := foldl_crc8_polyDiv bs 0 (by norm_num) hbs
  rw [h0] at h
  unfold crc8Bytes polyRem
  rw [h, List.foldl_append,
    foldl_polyDivStep_zeros _ (foldl_polyDivStep_lt (msgCoeffs bs) 0 (by norm_num))]

/-! ### The CRC as a remainder in the polynomial ring over GF(2) -/

theorem add_self_poly (p : Polynomial (ZMod 2)) : p + p = 0 :=
  CharTwo.add_self_eq_zero p

theorem maskEval_xor (a b : Nat) :
    maskEval (Polynomial.X : Polynomial (ZMod 2)) (a ^^^ b) =
      maskEval Polynomial.X a + maskEval Polynomial.X b := by
  unfold maskEval
  rw [← Finset.sum_add_distrib]
  apply Finset.sum_congr rfl
  intro k _
  rw [Nat.testBit_xor]
  cases a.testBit k <;> cases b.testBit k <;> simp [add_self_poly]

theorem maskEval_generator :
    maskEval (Polynomial.X : Polynomial (ZMod 2)) crc8Generator =
      crc8GeneratorAt Polynomial.X := by
  unfold maskEval crc8GeneratorAt crc8Generator
  simp [Finset.sum_range_succ, Nat.testBit]
  ring

theorem maskEval_shift (r : Nat) (c : Bool) (hr : r < 256) :
    maskEval (Polynomial.X : Polynomial (ZMod 2)) (2 * r + (if c then 1 else 0)) =
      maskEval Polynomial.X r * Polynomial.X + (if c then 1 else 0) := by
  have h8 : r.testBit 8 = false := Nat.testBit_lt_two_pow (by simpa using hr)
  have hdiv : (2 * r + (if c then 1 else 0)) / 2 = r := by
    cases c
    · simp
    · simp only [if_true]; omega
  have hmod : decide ((2 * r + (if c then 1 else 0)) % 2 = 1) = c := by
    cases c
    · simp
    · simp only [if_true, decide_eq_true_eq]; omega
  unfold maskEval
  rw [Finset.sum_range_succ',
    Finset.sum_range_succ
      (fun k => if r.testBit k then (Polynomial.X : Polynomial (ZMod 2)) ^ k else 0) 8, h8]
  simp only [Bool.false_eq_true, if_false, add_zero, Finset.sum_mul]
  simp only [Nat.testBit_succ, hdiv, Nat.testBit_zero, hmod, pow_zero]
  congr 1
  apply Finset.sum_congr rfl
  intro k _
  cases r.testBit k <;> simp [pow_succ]

theorem ite_pow_eq (p : Prop) [Decidable p] (k : Nat) :
    (if p then (Polynomial.X : Polynomial (ZMod 2)) ^ k else 0) =
      (if p then 1 else 0) * Polynomial.X ^ k := by
  split_ifs <;> simp

/-- The eight coefficients of a byte and its bit mask give the same polynomial. -/
theorem coeffEval_byteCoeffs (r : Nat) (hr : r < 256) :
    coeffEval (Polynomial.X : Polynomial (ZMod 2)) (byteCoeffs r) =
      maskEval Polynomial.X r := by
  have h8 : r.testBit 8 = false := Nat.testBit_lt_two_pow (by simpa using hr)
  unfold maskEval coeffEval byteCoeffs
  simp only [Finset.sum_range_succ, Finset.sum_range_zero, List.foldl_cons, List.foldl_nil]
  rw [h8]
  simp only [Nat.testBit_to_div_mod, ite_pow_eq, decide_eq_true_eq, Nat.reducePow, Nat.div_one,
    Bool.false_eq_true, if_false]
  ring

theorem coeffEval_append_one {R : Type} [Semiring R] (x : R) (cs : List Bool) (c : Bool) :
    coeffEval x (cs ++ [c]) = coeffEval x cs * x + (if c then 1 else 0) := by
  simp [coeffEval, List.foldl_append]

theorem coeffEval_append_zeros {R : Type} [Semiring R] (x : R) (cs : List Bool) (n : Nat) :
    coeffEval x (cs ++ List.replicate n false) = coeffEval x cs * x ^ n := by
  induction n with
  | zero => simp
  | succ n ih =>
    rw [List.replicate_succ', ← List.append_assoc, coeffEval_append_one, ih]
    simp [pow_succ, mul_assoc]

theorem maskEval_polyDivStep (r : Nat) (c : Bool) (hr : r < 256) :
    ∃ e : Polynomial (ZMod 2),
      maskEval Polynomial.X r * Polynomial.X + (if c then 1 else 0) =
        crc8GeneratorAt Polynomial.X * e + maskEval Polynomial.X (polyDivStep r c) := by
  by_cases hbit : (2 * r + (if c then 1 else 0)) / 256 % 2 = 1
  · refine ⟨1, ?_⟩
    have : polyDivStep r c = (2 * r + (if c then 1 else 0)) ^^^ crc8Generator := by
      simp only [polyDivStep, hbit, if_true]
    rw [this, maskEval_xor, maskEval_generator, maskEval_shift r c hr, mul_one,
      add_comm (crc8GeneratorAt Polynomial.X), add_assoc, add_self_poly, add_zero]
  · refine ⟨0, ?_⟩
    have : polyDivStep r c = 2 * r + (if c then 1 else 0) := by
      simp only [polyDivStep, hbit, if_false]
    rw [this, maskEval_shift r c hr, mul_zero, zero_add]

/-- Long division splits the dividend into a multiple of the generator and the
remainder, in the polynomial ring over GF(2). -/
theorem coeffEval_polyRem (cs : List Bool) :
    ∃ q : Polynomial (ZMod 2),
      coeffEval Polynomial.X cs =
        crc8GeneratorAt Polynomial.X * q + maskEval Polynomial.X (polyRem cs) := by
  induction cs using List.reverseRecOn with
  | nil => exact ⟨0, by simp [coeffEval, polyRem, maskEval]⟩
  | append_singleton cs c ih =>
    obtain ⟨q, hq⟩ := ih
    have hr : polyRem cs < 256 := foldl_polyDivStep_lt cs 0 (by norm_num)
    obtain ⟨e, he⟩ := maskEval_polyDivStep (polyRem cs) c hr
    have hstep : polyRem (cs ++ [c]) = polyDivStep (polyRem cs) c := by
      simp [polyRem, List.foldl_append]
    refine ⟨q * Polynomial.X + e, ?_⟩
    rw [coeffEval_append_one, hq, hstep, add_mul, add_assoc, he]
    ring

theorem crc8GeneratorAt_monic :
    (crc8GeneratorAt (Polynomial.X : Polynomial (ZMod 2))).Monic := by
  unfold crc8GeneratorAt
  monicity!

theorem crc8GeneratorAt_degree :
    (crc8GeneratorAt (Polynomial.X : Polynomial (ZMod 2))).degree = 8 := by
  unfold crc8GeneratorAt
  compute_degree!

theorem maskEval_degree (r : Nat) (hr : r < 256) :
    (maskEval (Polynomial.X : Polynomial (ZMod 2)) r).degree < 8 := by
  have h8 : r.testBit 8 = false := Nat.testBit_lt_two_pow (by simpa using hr)
  unfold maskEval
  rw [Finset.sum_range_succ, h8]
  simp only [Bool.false_eq_true, if_false, add_zero]
  refine lt_of_le_of_lt (Polynomial.degree_sum_le _ _) ?_
  rw [Finset.sup_lt_iff (by decide)]
  intro k hk
  have hk8 : k < 8 := Finset.mem_range.mp hk
  split_ifs
  · rw [Polynomial.degree_X_pow]
    exact_mod_cast hk8
  · rw [Polynomial.degree_zero]
    decide

/-- The remainder of long division is the remainder of Mathlib's division by a
monic polynomial. -/
theorem polyRem_modByMonic (cs : List Bool) :
    maskEval Polynomial.X (polyRem cs) =
      Polynomial.modByMonic (coeffEval Polynomial.X cs)
        (crc8GeneratorAt (Polynomial.X : Polynomial (ZMod 2))) := by
  obtain ⟨q, hq⟩ := coeffEval_polyRem cs
  have hr : polyRem cs < 256 := foldl_polyDivStep_lt cs 0 (by norm_num)
  have h : Polynomial.divByMonic (coeffEval Polynomial.X cs) (crc8GeneratorAt Polynomial.X) = q ∧
      Polynomial.modByMonic (coeffEval Polynomial.X cs) (crc8GeneratorAt Polynomial.X) =
        maskEval Polynomial.X (polyRem cs) :=
    Polynomial.div_modByMonic_unique q (maskEval Polynomial.X (polyRem cs))
      crc8GeneratorAt_monic
      ⟨by rw [hq, add_comm], by rw [crc8GeneratorAt_degree]; exact maskEval_degree _ hr⟩
  exact h.2.symm

/-- The CRC of the code, read as a polynomial, is the remainder of the message
polynomial times `X^8` modulo the generator. -/
theorem crc8Bytes_modByMonic (bs : List Nat) (hbs : ∀ b ∈ bs, b < 256) :
    coeffEval (Polynomial.X : Polynomial (ZMod 2)) (byteCoeffs (crc8Bytes bs)) =
      Polynomial.modByMonic (coeffEval Polynomial.X (msgCoeffs bs) * Polynomial.X ^ 8)
        (crc8GeneratorAt Polynomial.X) := by
  have hlt : crc8Bytes bs < 256 := foldl_crc8DvbS2_lt bs 0 (by norm_num) hbs
  rw [coeffEval_byteCoeffs _ hlt, crc8Bytes_eq_polyRem bs hbs, polyRem_modByMonic,
    coeffEval_append_zeros]

/-! ## Facts about the marshaler -/

mutual
theorem encodeValue_eq : ∀ (v : Value) (w : List Nat),
    encodeValue w v = w ++ Value.wireBytes v
  | Value.uint8 x, w => by simp [encodeValue, Value.wireBytes]
  | Value.uint16 x, w => by simp [encodeValue, Value.wireBytes]
  | Value.uint32 x, w => by simp [encodeValue, Value.wireBytes]
  | Value.struct fields, w => by
    simp only [encodeValue, Value.wireBytes]
    exact encodeEach_eq fields w
  | Value.slice elems, w => by
    simp only [encodeValue, Value.wireBytes]
    exact encodeEach_eq elems w
theorem encodeEach_eq : ∀ (vs : List Value) (w : List Nat),
    encodeEach w vs = w ++ Value.wireBytesEach vs
  | [], w => by simp [encodeEach, Value.wireBytesEach]
  | v :: vs, w => by
    simp only [encodeEach, Value.wireBytesEach]
    rw [encodeValue_eq v w, encodeEach_eq vs (w ++ Value.wireBytes v), List.append_assoc]
end

theorem getD_window (l : List Nat) (pos n i : Nat) (hi : i < n) :
    ((l.drop pos).take n).getD i 0 = l.getD (pos + i) 0 := by
  simp [List.getD_eq_getElem?_getD, List.getElem?_take, hi, List.getElem?_drop]

theorem window_take (f : MSPFrame) (a b : Nat) :
    (f.window (a + b)).take a = f.window a := by
  simp [MSPFrame.window, List.take_take]

theorem window_drop (f : MSPFrame) (a b : Nat) :
    (f.window (a + b)).drop a =
      MSPFrame.window { f with payloadPos := f.payloadPos + a } b := by
  simp [MSPFrame.window, List.drop_take, List.drop_drop, Nat.add_comm]

mutual
/-- With enough bytes left, `Read` through a pointer succeeds, decodes the window
at the cursor and moves the cursor past it. -/
theorem readPtr_ok : ∀ (v : Value) (f : MSPFrame), Value.readable v = true →
    f.payloadPos + Value.encodedSize v ≤ f.Payload.length →
    f.readPtr v =
      (Result.ok (), { f with payloadPos := f.payloadPos + Value.encodedSize v },
        Value.fromBytes v (f.window (Value.encodedSize v)))
  | Value.uint8 x, f, _, h => by
    have hr : ¬ f.BytesRemaining < 1 := by
      simp only [MSPFrame.BytesRemaining, Value.encodedSize] at *; omega
    simp only [MSPFrame.readPtr, hr, if_false, Value.encodedSize, Value.fromBytes,
      MSPFrame.window]
    rw [getD_window _ _ 1 0 (by omega)]
    rfl
  | Value.uint16 x, f, _, h => by
    have hr : ¬ f.BytesRemaining < 2 := by
      simp only [MSPFrame.BytesRemaining, Value.encodedSize] at *; omega
    simp only [MSPFrame.readPtr, hr, if_false, Value.encodedSize, Value.fromBytes,
      MSPFrame.window]
    rw [getD_window _ _ 2 0 (by omega), getD_window _ _ 2 1 (by omega)]
    rfl
  | Value.uint32 x, f, _, h => by
    have hr : ¬ f.BytesRemaining < 4 := by
      simp only [MSPFrame.BytesRemaining, Value.encodedSize] at *; omega
    simp only [MSPFrame.readPtr, hr, if_false, Value.encodedSize, Value.fromBytes,
      MSPFrame.window]
    rw [getD_window _ _ 4 0 (by omega), getD_window _ _ 4 1 (by omega),
      getD_window _ _ 4 2 (by omega), getD_window _ _ 4 3 (by omega)]
    rfl
  | Value.struct fields, f, hv, h => by
    simp only [Value.readable] at hv
    simp only [Value.encodedSize] at h
    simp only [MSPFrame.readPtr, Value.encodedSize, Value.fromBytes,
      readEach_ok fields f hv h]
  | Value.slice elems, f, hv, _ => by
    simp [Value.readable] at hv
/-- The same for the loop over the parts of a struct or slice. -/
theorem readEach_ok : ∀ (vs : List Value) (f : MSPFrame), Value.allReadable vs = true →
    f.payloadPos + Value.encodedSizes vs ≤ f.Payload.length →
    f.readEach vs =
      (Result.ok (), { f with payloadPos := f.payloadPos + Value.encodedSizes vs },
        Value.fromBytesEach vs (f.window (Value.encodedSizes vs)))
  | [], f, _, _ => by
    simp [MSPFrame.readEach, Value.encodedSizes, Value.fromBytesEach]
  | v :: vs, f, hv, h => by
    simp only [Value.allReadable, Bool.and_eq_true] at hv
    simp only [Value.encodedSizes] at h
    have h1 := readPtr_ok v f hv.1 (by omega)
    have h2 := readEach_ok vs { f with payloadPos := f.payloadPos + Value.encodedSize v }
      hv.2 (by simp only []; omega)
    simp only [MSPFrame.readEach, h1, h2, Value.encodedSizes, Value.fromBytesEach,
      window_take, window_drop, Nat.add_assoc]
end

mutual
/-- With too few bytes left, `Read` through a pointer returns `io.EOF`. -/
theorem readPtr_eof : ∀ (v : Value) (f : MSPFrame), Value.readable v = true →
    f.payloadPos ≤ f.Payload.length →
    ¬ f.payloadPos + Value.encodedSize v ≤ f.Payload.length →
    (f.readPtr v).1 = Result.error MSPError.EOF
  | Value.uint8 x, f, _, _, h => by
    have hr : f.BytesRemaining < 1 := by
      simp only [MSPFrame.BytesRemaining, Value.encodedSize] at *; omega
    simp only [MSPFrame.readPtr, hr, if_true]
  | Value.uint16 x, f, _, _, h => by
    have hr : f.BytesRemaining < 2 := by
      simp only [MSPFrame.BytesRemaining, Value.encodedSize] at *; omega
    simp only [MSPFrame.readPtr, hr, if_true]
  | Value.uint32 x, f, _, _, h => by
    have hr : f.BytesRemaining < 4 := by
      simp only [MSPFrame.BytesRemaining, Value.encodedSize] at *; omega
    simp only [MSPFrame.readPtr, hr, if_true]
  | Value.struct fields, f, hv, hpos, h => by
    simp only [Value.readable] at hv
    simp only [Value.encodedSize] at h
    have := readEach_eof fields f hv hpos h
    simp only [MSPFrame.readPtr]
    exact this
  | Value.slice elems, f, hv, _, _ => by
    simp [Value.readable] at hv
/-- The same for the loop over the parts of a struct or slice. -/
theorem readEach_eof : ∀ (vs : List Value) (f : MSPFrame), Value.allReadable vs = true →
    f.payloadPos ≤ f.Payload.length →
    ¬ f.payloadPos + Value.encodedSizes vs ≤ f.Payload.length →
    (f.readEach vs).1 = Result.error MSPError.EOF
  | [], f, _, hpos, h => by
    simp only [Value.encodedSizes] at h
    omega
  | v :: vs, f, hv, hpos, h => by
    simp only [Value.allReadable, Bool.and_eq_true] at hv
    simp only [Value.encodedSizes] at h
    by_cases h1 : f.payloadPos + Value.encodedSize v ≤ f.Payload.length
    · have hok := readPtr_ok v f hv.1 h1
      have h2 := readEach_eof vs { f with payloadPos := f.payloadPos + Value.encodedSize v }
        hv.2 h1 (by simp only []; omega)
      simp only [MSPFrame.readEach, hok]
      exact h2
    · have he := readPtr_eof v f hv.1 hpos h1
      simp only [MSPFrame.readEach]
      rcases hrd : f.readPtr v with ⟨r, f1, v1⟩
      rw [hrd] at he
      simp only at he
      subst he
      rfl
end

/-- One argument: `encodeArgs` appends its wire layout and returns no error. -/
theorem encodeArgs_single (w : List Nat) (v : Value) :
    encodeArgs w [Arg.val v] = (Result.ok (), w ++ Value.wireBytes v) := by
  cases v <;> simp [encodeArgs, encodeValue_eq]

/-- An integer argument is appended and the loop goes on to the next argument. -/
theorem encodeArgs_cons_int (w : List Nat) (v : Value) (args : List Arg)
    (hv : (∃ x, v = Value.uint8 x) ∨ (∃ x, v = Value.uint16 x) ∨ (∃ x, v = Value.uint32 x)) :
    encodeArgs w (Arg.val v :: args) = encodeArgs (w ++ Value.wireBytes v) args := by
  rcases hv with ⟨x, rfl⟩ | ⟨x, rfl⟩ | ⟨x, rfl⟩ <;> simp [encodeArgs, encodeValue_eq]

/-- A struct or slice argument is appended and ends the call: the arguments after
it are not looked at. -/
theorem encodeArgs_cons_aggregate (w : List Nat) (v : Value) (args : List Arg)
    (hv : (∃ fields, v = Value.struct fields) ∨ (∃ elems, v = Value.slice elems)) :
    encodeArgs w (Arg.val v :: args) = (Result.ok (), w ++ Value.wireBytes v) := by
  rcases hv with ⟨x, rfl⟩ | ⟨x, rfl⟩ <;> simp [encodeArgs, encodeValue_eq]

/-- The wire layout of an `MSPSerialConfig`: seven bytes. -/
theorem encodeArgs_MSPSerialConfig (c : MSPSerialConfig) :
    encodeArgs [] [Arg.val c.toValue] =
      (Result.ok (), [c.Identifier, c.FunctionMask % 256, c.FunctionMask / 256 % 256,
        c.MSPBaudRateIndex, c.GPSBaudRateIndex, c.TelemetryBaudRateIndex,
        c.PeripheralBaudRateIndex]) := by
  rw [encodeArgs_single]
  simp [MSPSerialConfig.toValue, Value.wireBytes, Value.wireBytesEach]

/-- The method `encodeArgs` never returns an error value: it succeeds or panics. -/
theorem encodeArgs_not_error (args : List Arg) (w : List Nat) (e : MSPError) :
    (encodeArgs w args).1 ≠ Result.error e := by
  induction args generalizing w with
  | nil => simp [encodeArgs]
  | cons a args ih =>
    cases a with
    | ptr v => simp [encodeArgs]
    | val v =>
      cases v with
      | uint8 x => simpa [encodeArgs] using ih _
      | uint16 x => simpa [encodeArgs] using ih _
      | uint32 x => simpa [encodeArgs] using ih _
      | struct fields => simp [encodeArgs]
      | slice elems => simp [encodeArgs]

theorem BytesRemaining_lt_iff (f : MSPFrame) (n : Nat) :
    f.BytesRemaining < (n : Int) ↔ ¬ f.payloadPos + n ≤ f.Payload.length := by
  simp only [MSPFrame.BytesRemaining]
  omega

/-- `Read` through a pointer to a supported shape. -/
theorem Read_ptr_spec (f : MSPFrame) (v : Value)
    (hpos : f.payloadPos ≤ f.Payload.length) (hv : Value.readable v = true) :
    ((f.Read (Arg.ptr v)).1 = Result.error MSPError.EOF ↔
        f.BytesRemaining < (Value.encodedSize v : Int)) ∧
      (¬ f.BytesRemaining < (Value.encodedSize v : Int) →
        f.Read (Arg.ptr v) =
          (Result.ok (), { f with payloadPos := f.payloadPos + Value.encodedSize v },
            Arg.ptr (Value.fromBytes v (f.window (Value.encodedSize v))))) := by
  have hok : ¬ f.BytesRemaining < (Value.encodedSize v : Int) →
      f.Read (Arg.ptr v) =
        (Result.ok (), { f with payloadPos := f.payloadPos + Value.encodedSize v },
          Arg.ptr (Value.fromBytes v (f.window (Value.encodedSize v)))) := by
    intro h
    rw [BytesRemaining_lt_iff, not_not] at h
    simp only [MSPFrame.Read, readPtr_ok v f hv h]
  refine ⟨⟨?_, ?_⟩, hok⟩
  · intro he
    by_contra h
    rw [hok h] at he
    cases he
  · intro h
    rw [BytesRemaining_lt_iff] at h
    have := readPtr_eof v f hv hpos h
    simp only [MSPFrame.Read]
    exact this

/-- `Read` into a slice of supported shapes. -/
theorem Read_slice_spec (f : MSPFrame) (elems : List Value)
    (hpos : f.payloadPos ≤ f.Payload.length) (hes : Value.allReadable elems = true) :
    ((f.Read (Arg.val (Value.slice elems))).1 = Result.error MSPError.EOF ↔
        f.BytesRemaining < (Value.encodedSize (Value.slice elems) : Int)) ∧
      (¬ f.BytesRemaining < (Value.encodedSize (Value.slice elems) : Int) →
        f.Read (Arg.val (Value.slice elems)) =
          (Result.ok (),
            { f with payloadPos := f.payloadPos + Value.encodedSize (Value.slice elems) },
            Arg.val (Value.fromBytes (Value.slice elems)
              (f.window (Value.encodedSize (Value.slice elems)))))) := by
  have hok : ¬ f.BytesRemaining < (Value.encodedSize (Value.slice elems) : Int) →
      f.Read (Arg.val (Value.slice elems)) =
        (Result.ok (),
          { f with payloadPos := f.payloadPos + Value.encodedSize (Value.slice elems) },
          Arg.val (Value.fromBytes (Value.slice elems)
            (f.window (Value.encodedSize (Value.slice elems))))) := by
    intro h
    rw [BytesRemaining_lt_iff, not_not] at h
    simp only [Value.encodedSize] at h
    simp only [MSPFrame.Read, Value.encodedSize, Value.fromBytes, readEach_ok elems f hes h]
  refine ⟨⟨?_, ?_⟩, hok⟩
  · intro he
    by_contra h
    rw [hok h] at he
    cases he
  · intro h
    rw [BytesRemaining_lt_iff] at h
    simp only [Value.encodedSize] at h
    have := readEach_eof elems f hes hpos h
    simp only [MSPFrame.Read]
    exact this

mutual
/-- The cursor invariant: `Read` through a pointer, whatever its outcome, leaves
the payload alone, never moves the cursor back and never moves it past the end
of the payload. -/
theorem readPtr_cursor : ∀ (v : Value) (f : MSPFrame), f.payloadPos ≤ f.Payload.length →
    (f.readPtr v).2.1.Payload = f.Payload ∧
      f.payloadPos ≤ (f.readPtr v).2.1.payloadPos ∧
      (f.readPtr v).2.1.payloadPos ≤ f.Payload.length
  | Value.uint8 x, f, h => by
    simp only [MSPFrame.readPtr, MSPFrame.BytesRemaining]
    split_ifs with hr
    · exact ⟨rfl, Nat.le_refl _, h⟩
    · refine ⟨rfl, Nat.le_add_right _ _, ?_⟩
      show f.payloadPos + 1 ≤ f.Payload.length
      omega
  | Value.uint16 x, f, h => by
    simp only [MSPFrame.readPtr, MSPFrame.BytesRemaining]
    split_ifs with hr
    · exact ⟨rfl, Nat.le_refl _, h⟩
    · refine ⟨rfl, Nat.le_add_right _ _, ?_⟩
      show f.payloadPos + 2 ≤ f.Payload.length
      omega
  | Value.uint32 x, f, h => by
    simp only [MSPFrame.readPtr, MSPFrame.BytesRemaining]
    split_ifs with hr
    · exact ⟨rfl, Nat.le_refl _, h⟩
    · refine ⟨rfl, Nat.le_add_right _ _, ?_⟩
      show f.payloadPos + 4 ≤ f.Payload.length
      omega
  | Value.struct fields, f, h => by
    simp only [MSPFrame.readPtr]
    exact readEach_cursor fields f h
  | Value.slice elems, f, h => by
    simp only [MSPFrame.readPtr]
    exact ⟨trivial, Nat.le_refl _, h⟩
/-- The cursor invariant for the loop over the parts of a struct or slice. -/
theorem readEach_cursor : ∀ (vs : List Value) (f : MSPFrame),
    f.payloadPos ≤ f.Payload.length →
    (f.readEach vs).2.1.Payload = f.Payload ∧
      f.payloadPos ≤ (f.readEach vs).2.1.payloadPos ∧
      (f.readEach vs).2.1.payloadPos ≤ f.Payload.length
  | [], f, h => by
    simp only [MSPFrame.readEach]
    exact ⟨trivial, Nat.le_refl _, h⟩
  | v :: vs, f, h => by
    have h1 := readPtr_cursor v f h
    simp only [MSPFrame.readEach]
    rcases hrd : f.readPtr v with ⟨r, f1, v1⟩
    rw [hrd] at h1
    simp only at h1
    cases r with
    | ok u =>
      have h2 := readEach_cursor vs f1 (by rw [h1.1]; exact h1.2.2)
      simp only
      refine ⟨h2.1.trans h1.1, Nat.le_trans h1.2.1 h2.2.1, ?_⟩
      rw [← h1.1]
      exact h2.2.2
    | error e => exact h1
    | panic => exact h1
end

theorem readMSPV1Frame_cursor (m : MSP) (fr : MSPFrame)
    (h : (readMSPV1Frame m).1 = Result.ok fr) : fr.payloadPos = 0 := by
  unfold readMSPV1Frame at h
  repeat' (first | split at h | simp at h)
  all_goals (rw [← h])

theorem readMSPV2Frame_cursor (m : MSP) (fr : MSPFrame)
    (h : (readMSPV2Frame m).1 = Result.ok fr) : fr.payloadPos = 0 := by
  unfold readMSPV2Frame at h
  repeat' (first | split at h | simp at h)
  all_goals (rw [← h])

/-- The frames `ReadFrame` returns start with the cursor at 0, within the
payload. -/
theorem ReadFrame_cursor (m : MSP) (fr : MSPFrame) (h : (ReadFrame m).1 = Result.ok fr) :
    fr.payloadPos = 0 := by
  unfold ReadFrame at h
  repeat' split at h
  all_goals first
    | exact readMSPV1Frame_cursor _ fr h
    | exact readMSPV2Frame_cursor _ fr h
    | simp at h

/-! ## Frames whose header arrives in one read -/

/-- When the three header bytes arrive in one read, `ReadFrame` on the bytes of
`mspV1Encode c p` (a payload of at most 255 bytes), whatever follows them,
returns the frame `(c, p, cursor 0)` and leaves the bytes that follow. -/
theorem ReadFrame_mspV1Encode_fullHeader (m : MSP) (c : Nat) (p rest chunks : List Nat)
    (h : p.length ≤ 255) (hfill : nextReadFills chunks.tail.tail 3 = true) :
    ∃ chunks1,
      ReadFrame { m with Port := some { pending := mspV1Encode c p ++ rest, chunks := chunks } } =
        (Result.ok { Code := c, Payload := p, payloadPos := 0 },
          { m with Port := some { pending := rest, chunks := chunks1 } }) := by
  have hbytes : mspV1Encode c p ++ rest =
      36 :: 77 :: 60 :: p.length :: c :: (p ++ xorBytes 0 (p.length :: c :: p) :: rest) := by
    rw [mspV1Encode_eq c p h]; simp
  rw [hbytes, ReadFrame_V1]
  obtain ⟨chunks1, h1⟩ := readMSPV1Frame_stream m 60 c (xorBytes 0 (p.length :: c :: p)) p rest
    chunks.tail.tail (Or.inl rfl) hfill
  exact ⟨chunks1, by simpa using h1⟩

/-- When the three header bytes arrive in one read, a frame of `mspV1Encode` with
one payload byte overwritten by a different value is refused with the checksum
error. -/
theorem ReadFrame_payload_corruption_fullHeader (m : MSP) (c : Nat) (p chunks : List Nat)
    (i v : Nat) (h : p.length ≤ 255) (hi : i < p.length) (hv : v ≠ p[i])
    (hfill : nextReadFills chunks.tail.tail 3 = true) :
    ∃ chunks1,
      ReadFrame
          { m with
            Port := some { pending := (mspV1Encode c p).set (5 + i) v, chunks := chunks } } =
        (Result.error (MSPError.mspChecksumErr c (p.set i v)
            (xorBytes 0 (p.length :: c :: p)) (xorBytes 0 (p.length :: c :: p.set i v))),
          { m with Port := some { pending := [], chunks := chunks1 } }) := by
  have hne : xorBytes 0 (p.length :: c :: p) ≠ xorBytes 0 (p.length :: c :: p.set i v) :=
    xorBytes_set_ne ((0 ^^^ p.length) ^^^ c) p i v hi hv
  have hset : (mspV1Encode c p).set (5 + i) v =
      36 :: 77 :: 60 :: (p.set i v).length :: c ::
        (p.set i v ++ xorBytes 0 (p.length :: c :: p) :: []) := by
    rw [mspV1Encode_eq c p h, Nat.add_comm 5 i]
    simp [List.set_append, hi]
  obtain ⟨chunks1, h1⟩ := readMSPV1Frame_stream m 60 c (xorBytes 0 (p.length :: c :: p))
    (p.set i v) [] chunks.tail.tail (Or.inl rfl) hfill
  have hne2 : ¬ xorBytes 0 (p.length :: c :: p) =
      xorBytes 0 ((p.set i v).length :: c :: p.set i v) := by
    simpa using hne
  rw [if_neg hne2] at h1
  refine ⟨chunks1, ?_⟩
  rw [hset, ReadFrame_V1, h1]
  simp

/-! ## Use after close -/

/-- After a successful `Close` the port handle is nil; `ReadFrame` then returns
`io.EOF` and leaves the session as it is, and `WriteCmd` panics, whatever the
command and its arguments, and writes nothing. -/
theorem use_after_close (m closed : MSP) (portCloseErr : Option MSPError)
    (cmd : Nat) (args : List Arg) (h : Close m portCloseErr = (none, closed)) :
    closed.Port = none ∧
      ReadFrame closed = (Result.error MSPError.EOF, closed) ∧
      WriteCmd closed cmd args = (Result.panic, [], closed) := by
  have hport : closed.Port = none := by
    unfold Close at h
    cases hp : m.Port with
    | none =>
      rw [hp] at h
      simp only [Prod.mk.injEq, true_and] at h
      rw [← h]
      exact hp
    | some s =>
      rw [hp] at h
      cases portCloseErr with
      | none =>
        simp only [Prod.mk.injEq, true_and] at h
        rw [← h]
      | some err => simp at h
  refine ⟨hport, ?_, ?_⟩
  · simp only [ReadFrame, hport]
  · unfold WriteCmd
    rcases henc : encodeArgs [] args with ⟨r, data⟩
    cases r with
    | ok u => simp only [hport]
    | error e =>
      have := encodeArgs_not_error args [] e
      rw [henc] at this
      exact absurd rfl this
    | panic => rfl

/-! ## The claims -/

/-- C1, at a failing input.  The engine reads the three header bytes with one
`m.Port.Read` and discards the count, although a serial read may return before the
buffer is full (the payload right below is read with `io.ReadFull`).  On a port
that returns one byte per read, `ReadFrame` on exactly the bytes of
`mspV1Encode 3 [16, 32]` takes length 0 and command 0 from the unfilled buffer and
returns the checksum error `(code 0, payload [], observed 2, expected 0)`, no
frame.  On a port that fills the buffer the same bytes give the frame
`(3, [16, 32], cursor 0)`. -/
theorem C1_ReadFrame_short_header_read :
    (ReadFrame (openChunked (mspV1Encode 3 [16, 32]) [1, 1, 1])).1 =
        Result.error (MSPError.mspChecksumErr 0 [] 2 0) ∧
      [16, 32].length ≤ 255 ∧
      (ReadFrame (openOn (mspV1Encode 3 [16, 32]))).1 =
        Result.ok { Code := 3, Payload := [16, 32], payloadPos := 0 } := by
  decide

/-- C2. V1 encode layout: for a payload `p` of at most 255 bytes,
`mspV1Encode c p` is `'$'`, `'M'`, `'<'`, `len p`, `c`, the bytes of `p`, and one
checksum byte, the XOR (from 0) of `len p`, `c` and the bytes of `p`; it is
`len p + 6` bytes long; command 1 with the empty payload gives
`24 4D 3C 00 01 01`. -/
theorem C2_mspV1Encode_layout (c : Nat) (p : List Nat) (h : p.length ≤ 255) :
    mspV1Encode c p =
        [0x24, 0x4D, 0x3C, p.length, c] ++ p ++
          [(p.length :: c :: p).foldl (fun acc v => acc ^^^ v) 0] ∧
      (mspV1Encode c p).length = p.length + 6 ∧
      mspV1Encode 1 [] = [0x24, 0x4D, 0x3C, 0x00, 0x01, 0x01] := by
  refine ⟨?_, ?_, by decide⟩
  · rw [mspV1Encode_eq c p h]; simp [xorBytes]
  · rw [mspV1Encode_eq c p h]; simp

theorem C2_mspV1Encode_layout_witness :
    [16, 32].length ≤ 255 ∧
    (mspV1Encode 3 [16, 32] =
        [0x24, 0x4D, 0x3C, [16, 32].length, 3] ++ [16, 32] ++
          [([16, 32].length :: 3 :: [16, 32]).foldl (fun acc v => acc ^^^ v) 0] ∧
      (mspV1Encode 3 [16, 32]).length = [16, 32].length + 6 ∧
      mspV1Encode 1 [] = [0x24, 0x4D, 0x3C, 0x00, 0x01, 0x01]) :=
  ⟨by decide, C2_mspV1Encode_layout 3 [16, 32] (by decide)⟩

/-- C3, at a failing input.  The stream `3C 02 03 10 20 31` holds a direction
byte, the length 2, the command 3, two payload bytes and their correct checksum
`0x31`.  On a port that returns one byte for the header read (the count is
discarded), `readMSPV1Frame` returns no frame but the checksum error
`(code 0, payload [], observed 2, expected 0)` and leaves the bytes from the
command byte on unread.  On a port that fills the buffer the same stream gives
the frame `(3, [16, 32], cursor 0)`. -/
theorem C3_readMSPV1Frame_short_header_read :
    readMSPV1Frame (openChunked [0x3C, 2, 3, 0x10, 0x20, 0x31] [1]) =
        (Result.error (MSPError.mspChecksumErr 0 [] 2 0),
          openChunked [3, 0x10, 0x20, 0x31] []) ∧
      (0x31 : Nat) = ([0x10, 0x20].length :: 3 :: [0x10, 0x20]).foldl (fun acc v => acc ^^^ v) 0 ∧
      readMSPV1Frame (openOn [0x3C, 2, 3, 0x10, 0x20, 0x31]) =
        (Result.ok { Code := 3, Payload := [0x10, 0x20], payloadPos := 0 }, openOn []) := by
  decide

/-- C4, at a failing input.  In `mspV1Encode 0 [0]`, the bytes
`24 4D 3C 01 00 00 01`, overwrite the payload byte 0 by 1.  On a port whose header
read returns two bytes (the count is discarded), `ReadFrame` takes the command
from the unfilled buffer, reads the real command byte as the payload and the
altered payload byte as the checksum, and accepts the frame `(0, [0])`.  On a port
that fills the buffer the same bytes are refused with the checksum error. -/
theorem C4_payload_corruption_short_header_read :
    (mspV1Encode 0 [0]).set (5 + 0) 1 = [0x24, 0x4D, 0x3C, 1, 0, 1, 1] ∧
      (1 : Nat) ≠ [0][0] ∧
      (ReadFrame (openChunked ((mspV1Encode 0 [0]).set (5 + 0) 1) [1, 1, 2])).1 =
        Result.ok { Code := 0, Payload := [0], payloadPos := 0 } ∧
      (ReadFrame (openOn ((mspV1Encode 0 [0]).set (5 + 0) 1))).1 =
        Result.error (MSPError.mspChecksumErr 0 [1] 1 0) := by
  decide

/-- C5, the claim as stated fails: in the frame for command 0 with payload
`[0, 1]` replace the length byte 2 by 1.  `ReadFrame`, on a port that fills every
buffer, accepts the altered bytes and returns the frame with payload `[0]`; it
reports no checksum error. -/
theorem C5_length_corruption_counterexample :
    (1 : Nat) ≠ [0, 1].length ∧
    (ReadFrame (openOn ((mspV1Encode 0 [0, 1]).set 3 1))).1 =
      Result.ok { Code := 0, Payload := [0], payloadPos := 0 } ∧
    ¬ ∃ code payload checksum expected,
      (ReadFrame (openOn ((mspV1Encode 0 [0, 1]).set 3 1))).1 =
        Result.error (MSPError.mspChecksumErr code payload checksum expected) := by
  refine ⟨by decide, by decide, ?_⟩
  rintro ⟨code, payload, checksum, expected, h⟩
  have h2 : (ReadFrame (openOn ((mspV1Encode 0 [0, 1]).set 3 1))).1 =
      Result.ok { Code := 0, Payload := [0], payloadPos := 0 } := by decide
  rw [h2] at h
  cases h

/-- C5, amended.  Take `mspV1Encode c p` for a payload of at most 255 bytes,
replace the length byte (index 3) by a different value `n`, and let any bytes
`rest` follow on the stream; let the three header bytes arrive in one read.
Write `s` for the bytes after the command byte: `p`, the old checksum, `rest`.
`ReadFrame` never returns the original frame `(c, p)`.  It takes the first `n`
bytes of `s` for the payload and the byte after them for the checksum: it returns
the checksum error unless that byte is the XOR of `n`, `c` and those `n` bytes,
in which case it accepts them as the frame `(c, s[0..n))`; either way the bytes
after the checksum byte stay unread.  When the stream ends before those `n + 1`
bytes it returns a transport error and no frame: `io.EOF` when exactly the
checksum byte is missing, `io.ErrUnexpectedEOF` when payload bytes are. -/
theorem C5_length_corruption (m : MSP) (c : Nat) (p : List Nat) (n : Nat)
    (rest chunks s : List Nat) (h : p.length ≤ 255) (hn : n ≠ p.length)
    (hfill : nextReadFills chunks.tail.tail 3 = true)
    (hs : s = p ++ xorBytes 0 (p.length :: c :: p) :: rest) :
    (ReadFrame
          { m with
            Port := some { pending := (mspV1Encode c p).set 3 n ++ rest, chunks := chunks } }).1 ≠
        Result.ok { Code := c, Payload := p, payloadPos := 0 } ∧
      (s.length < n →
        (ReadFrame
          { m with
            Port := some { pending := (mspV1Encode c p).set 3 n ++ rest, chunks := chunks } }).1 =
          Result.error MSPError.ErrUnexpectedEOF) ∧
      (n = s.length →
        (ReadFrame
          { m with
            Port := some { pending := (mspV1Encode c p).set 3 n ++ rest, chunks := chunks } }).1 =
          Result.error MSPError.EOF) ∧
      (∀ hlt : n < s.length, ∃ chunks1,
        ReadFrame
          { m with
            Port := some { pending := (mspV1Encode c p).set 3 n ++ rest, chunks := chunks } } =
          (if s[n] = xorBytes 0 (n :: c :: s.take n)
            then Result.ok { Code := c, Payload := s.take n, payloadPos := 0 }
            else Result.error (MSPError.mspChecksumErr c (s.take n) s[n]
              (xorBytes 0 (n :: c :: s.take n))),
           { m with Port := some { pending := s.drop (n + 1), chunks := chunks1 } })) := by
  have hset : (mspV1Encode c p).set 3 n ++ rest = 36 :: 77 :: 60 :: n :: c :: s := by
    rw [mspV1Encode_eq c p h, hs]
    simp
  have hsne : s ≠ [] := by rw [hs]; simp
  rw [hset, ReadFrame_V1]
  have hbig : s.length < n →
      (readMSPV1Frame
        { m with Port := some { pending := 60 :: n :: c :: s, chunks := chunks.tail.tail } }).1 =
        Result.error MSPError.ErrUnexpectedEOF := by
    intro hgt
    obtain ⟨chunks1, h1⟩ := readMSPV1Frame_short m 60 n c s chunks.tail.tail (Or.inl rfl)
      hfill hsne hgt
    rw [h1]
  have heq : n = s.length →
      (readMSPV1Frame
        { m with Port := some { pending := 60 :: n :: c :: s, chunks := chunks.tail.tail } }).1 =
        Result.error MSPError.EOF := by
    intro he
    have hpos : n > 0 := by
      cases s with
      | nil => exact absurd rfl hsne
      | cons a t => simp [he]
    obtain ⟨chunks1, h1⟩ := readMSPV1Frame_noChecksum m 60 n c s chunks.tail.tail (Or.inl rfl)
      hfill hpos he.symm
    rw [h1]
  have hsmall : ∀ hlt : n < s.length, ∃ chunks1,
      readMSPV1Frame
        { m with Port := some { pending := 60 :: n :: c :: s, chunks := chunks.tail.tail } } =
        (if s[n] = xorBytes 0 (n :: c :: s.take n)
          then Result.ok { Code := c, Payload := s.take n, payloadPos := 0 }
          else Result.error (MSPError.mspChecksumErr c (s.take n) s[n]
            (xorBytes 0 (n :: c :: s.take n))),
         { m with Port := some { pending := s.drop (n + 1), chunks := chunks1 } }) := by
    intro hlt
    have hlen : (s.take n).length = n := by
      rw [List.length_take]; omega
    have hsplit : s = s.take n ++ s[n] :: s.drop (n + 1) := by
      rw [← List.drop_eq_getElem_cons hlt, List.take_append_drop]
    obtain ⟨chunks1, key⟩ := readMSPV1Frame_stream m 60 c s[n] (s.take n) (s.drop (n + 1))
      chunks.tail.tail (Or.inl rfl) hfill
    rw [hlen, ← hsplit] at key
    exact ⟨chunks1, key⟩
  refine ⟨?_, hbig, heq, hsmall⟩
  rcases Nat.lt_trichotomy n s.length with hlt | he | hgt
  · obtain ⟨chunks1, h1⟩ := hsmall hlt
    rw [h1]
    intro hcontra
    split_ifs at hcontra
    simp only [Result.ok.injEq, MSPFrame.mk.injEq, true_and, and_true] at hcontra
    have hl := congrArg List.length hcontra
    rw [List.length_take] at hl
    omega
  · rw [heq he]; simp
  · rw [hbig hgt]; simp

theorem C5_length_corruption_witness :
    [0, 1].length ≤ 255 ∧ 1 ≠ [0, 1].length ∧
    nextReadFills ([1, 1, 3] : List Nat).tail.tail 3 = true ∧
    [0, 1, 3, 9] = [0, 1] ++ xorBytes 0 ([0, 1].length :: 0 :: [0, 1]) :: [9] ∧
    ((ReadFrame
          { openOn [] with
            Port := some { pending := (mspV1Encode 0 [0, 1]).set 3 1 ++ [9], chunks := [1, 1, 3] } }).1 ≠
        Result.ok { Code := 0, Payload := [0, 1], payloadPos := 0 } ∧
      ([0, 1, 3, 9].length < 1 →
        (ReadFrame
          { openOn [] with
            Port := some { pending := (mspV1Encode 0 [0, 1]).set 3 1 ++ [9], chunks := [1, 1, 3] } }).1 =
          Result.error MSPError.ErrUnexpectedEOF) ∧
      (1 = [0, 1, 3, 9].length →
        (ReadFrame
          { openOn [] with
            Port := some { pending := (mspV1Encode 0 [0, 1]).set 3 1 ++ [9], chunks := [1, 1, 3] } }).1 =
          Result.error MSPError.EOF) ∧
      (∀ hlt : 1 < [0, 1, 3, 9].length, ∃ chunks1,
        ReadFrame
          { openOn [] with
            Port := some { pending := (mspV1Encode 0 [0, 1]).set 3 1 ++ [9], chunks := [1, 1, 3] } } =
          (if [0, 1, 3, 9][1] = xorBytes 0 (1 :: 0 :: [0, 1, 3, 9].take 1)
            then Result.ok { Code := 0, Payload := [0, 1, 3, 9].take 1, payloadPos := 0 }
            else Result.error (MSPError.mspChecksumErr 0 ([0, 1, 3, 9].take 1) [0, 1, 3, 9][1]
              (xorBytes 0 (1 :: 0 :: [0, 1, 3, 9].take 1))),
           { openOn [] with
             Port := some { pending := [0, 1, 3, 9].drop (1 + 1), chunks := chunks1 } }))) :=
  ⟨by decide, by decide, by decide, by decide,
    C5_length_corruption (openOn []) 0 [0, 1] 1 [9] [1, 1, 3] [0, 1, 3, 9]
      (by decide) (by decide) (by decide) (by decide)⟩

/-- C6, the claim as stated fails: for length 2, command 3, payload
`[0x10, 0x20]` and the wrong trailing byte 0, on a port that fills every buffer,
the checksum error does not carry the expected checksum `0x33`; it carries `0x31`,
the XOR of the length byte, the command byte and the payload. -/
theorem C6_checksum_scenario_counterexample :
    (ReadFrame (openOn [0x24, 0x4D, 0x3E, 2, 3, 0x10, 0x20, 0])).1 ≠
        Result.error (MSPError.mspChecksumErr 3 [0x10, 0x20] 0 0x33) ∧
      (ReadFrame (openOn [0x24, 0x4D, 0x3E, 2, 3, 0x10, 0x20, 0])).1 =
        Result.error (MSPError.mspChecksumErr 3 [0x10, 0x20] 0 0x31) := by
  constructor <;> decide

/-- C6, amended.  Decoding a V1 frame with length byte 2, command byte 3,
payload `[0x10, 0x20]` and a trailing byte `t` other than the correct checksum
`0x31`, when the three header bytes arrive in one read, returns the checksum error
for code 3 and that payload, with observed checksum `t` and expected checksum
`0x31` (`0x02 ^ 0x03 ^ 0x10 ^ 0x20`); the bytes after `t` stay unread. -/
theorem C6_checksum_scenario (m : MSP) (d t : Nat) (rest chunks : List Nat)
    (hd : d = 60 ∨ d = 62) (ht : t ≠ 0x31)
    (hfill : nextReadFills chunks.tail.tail 3 = true) :
    ∃ chunks1,
      ReadFrame
          { m with
            Port := some
              { pending := 0x24 :: 0x4D :: d :: 2 :: 3 :: 0x10 :: 0x20 :: t :: rest,
                chunks := chunks } } =
        (Result.error (MSPError.mspChecksumErr 3 [0x10, 0x20] t 0x31),
          { m with Port := some { pending := rest, chunks := chunks1 } }) := by
  rw [ReadFrame_V1]
  obtain ⟨chunks1, key⟩ := readMSPV1Frame_stream m d 3 t [0x10, 0x20] rest chunks.tail.tail
    hd hfill
  have hx : xorBytes 0 ([0x10, 0x20].length :: 3 :: [0x10, 0x20]) = 0x31 := by decide
  rw [hx, if_neg ht] at key
  exact ⟨chunks1, key⟩

theorem C6_checksum_scenario_witness :
    ((62 : Nat) = 60 ∨ (62 : Nat) = 62) ∧ (0 : Nat) ≠ 0x31 ∧
    nextReadFills ([1, 1, 3, 1] : List Nat).tail.tail 3 = true ∧
    ∃ chunks1,
      ReadFrame
          { openOn [] with
            Port := some
              { pending := 0x24 :: 0x4D :: 62 :: 2 :: 3 :: 0x10 :: 0x20 :: 0 :: [7],
                chunks := [1, 1, 3, 1] } } =
        (Result.error (MSPError.mspChecksumErr 3 [0x10, 0x20] 0 0x31),
          { openOn [] with Port := some { pending := [7], chunks := chunks1 } }) :=
  ⟨Or.inr rfl, by decide, by decide,
    C6_checksum_scenario (openOn []) 62 0 [7] [1, 1, 3, 1] (Or.inr rfl) (by decide) (by decide)⟩

/-- C7. Out-of-band byte: on an open session whose stream starts with a byte `b`
other than `'$'`, `ReadFrame` returns the out-of-band error carrying `b` and no
frame, and it consumes that one byte only: the rest of the stream is left.  This
holds for every read schedule of the port. -/
theorem C7_out_of_band (m : MSP) (b : Nat) (rest chunks : List Nat) (hb : b ≠ 36) :
    ReadFrame { m with Port := some { pending := b :: rest, chunks := chunks } } =
      (Result.error (MSPError.mspOOBErr b),
        { m with Port := some { pending := rest, chunks := chunks.tail } }) := by
  simp [ReadFrame, Port.Read_one, hb]

theorem C7_out_of_band_witness :
    (77 : Nat) ≠ 36 ∧
    ReadFrame
        { openOn [] with
          Port := some { pending := 77 :: [36, 77, 60, 0, 1, 1], chunks := [1, 2] } } =
      (Result.error (MSPError.mspOOBErr 77),
        { openOn [] with
          Port := some { pending := [36, 77, 60, 0, 1, 1], chunks := ([1, 2] : List Nat).tail } }) :=
  ⟨by decide, C7_out_of_band (openOn []) 77 [36, 77, 60, 0, 1, 1] [1, 2] (by decide)⟩

/-- C8, at a failing input.  The stream `3C 00 01 02 03 00 07 08 09 FF` holds,
after the marker, a direction byte, flags, command `1 + 256 * 2`, length 3, three
payload bytes and a trailing byte.  On a port that returns one byte for the
header read (the count is discarded), `readMSPV2Frame` takes command 0 and length
0 from the unfilled buffer, returns the frame `(0, [], cursor 0)` and consumes two
bytes, not `6 + 3 + 1`.  On a port that fills the buffer the same stream gives the
frame `(513, [7, 8, 9], cursor 0)` and is consumed whole. -/
theorem C8_readMSPV2Frame_short_header_read :
    readMSPV2Frame (openChunked [0x3C, 0, 1, 2, 3, 0, 7, 8, 9, 0xFF] [1]) =
        (Result.ok { Code := 0, Payload := [], payloadPos := 0 },
          openChunked [1, 2, 3, 0, 7, 8, 9, 0xFF] []) ∧
      [0x3C, 0, 1, 2, 3, 0, 7, 8, 9, 0xFF].drop 2 = [1, 2, 3, 0, 7, 8, 9, 0xFF] ∧
      readMSPV2Frame (openOn [0x3C, 0, 1, 2, 3, 0, 7, 8, 9, 0xFF]) =
        (Result.ok { Code := 1 + 256 * 2, Payload := [7, 8, 9], payloadPos := 0 },
          openOn []) := by
  decide

/-- C9. CRC-8/DVB-S2 correctness: for every byte sequence `bs`, folding
`crc8DvbS2` over `bs` from 0 gives the value of the reference CRC-8 with generator
`0xD5`, MSB first, no reflection, no final XOR.  It equals the table-driven
implementation over the published 256-entry table (`crc' = table[crc XOR byte]`),
whose entry `i` is eight shift-and-conditional-xor steps applied to `i`.  It
equals the remainder that long division over GF(2) leaves of `b(x) * x^8` (the
message bits followed by eight zero coefficients) modulo the generator.  In the
polynomial ring over `ZMod 2`, the polynomial whose coefficients are the bits of
the CRC is the remainder of `b(X) * X^8` modulo
`X^8 + X^7 + X^6 + X^4 + X^2 + 1`.  The CRC is a byte, and the check value of
`"123456789"` is `0xBC`. -/
theorem C9_crc8DvbS2_reference (bs : List Nat) (hbs : ∀ b ∈ bs, b < 256) :
    bs.foldl crc8DvbS2 0 = crc8TableDriven bs ∧
      (crc8RefTable.length = 256 ∧ ∀ i < 256, crc8RefTable.getD i 0 = refTableEntry i) ∧
      bs.foldl crc8DvbS2 0 = polyRem (msgCoeffs bs ++ List.replicate 8 false) ∧
      coeffEval (Polynomial.X : Polynomial (ZMod 2)) (byteCoeffs (bs.foldl crc8DvbS2 0)) =
        Polynomial.modByMonic (coeffEval Polynomial.X (msgCoeffs bs) * Polynomial.X ^ 8)
          (Polynomial.X ^ 8 + Polynomial.X ^ 7 + Polynomial.X ^ 6 + Polynomial.X ^ 4
            + Polynomial.X ^ 2 + 1) ∧
      bs.foldl crc8DvbS2 0 < 256 ∧
      [0x31, 0x32, 0x33, 0x34, 0x35, 0x36, 0x37, 0x38, 0x39].foldl crc8DvbS2 0 = 0xBC := by
  have hrem := crc8Bytes_eq_polyRem bs hbs
  have hmod := crc8Bytes_modByMonic bs hbs
  unfold crc8Bytes at hrem hmod
  unfold crc8GeneratorAt at hmod
  exact ⟨foldl_table_eq bs 0 (by norm_num) hbs,
    And.intro crc8RefTable_length crc8RefTable_eq_rule, hrem, hmod,
    foldl_crc8DvbS2_lt bs 0 (by norm_num) hbs, crc8_check_value⟩

theorem C9_crc8DvbS2_reference_witness :
    (∀ b ∈ [0x31, 0x32, 0x33], b < 256) ∧
    ([0x31, 0x32, 0x33].foldl crc8DvbS2 0 = crc8TableDriven [0x31, 0x32, 0x33] ∧
      (crc8RefTable.length = 256 ∧ ∀ i < 256, crc8RefTable.getD i 0 = refTableEntry i) ∧
      [0x31, 0x32, 0x33].foldl crc8DvbS2 0 =
        polyRem (msgCoeffs [0x31, 0x32, 0x33] ++ List.replicate 8 false) ∧
      coeffEval (Polynomial.X : Polynomial (ZMod 2))
          (byteCoeffs ([0x31, 0x32, 0x33].foldl crc8DvbS2 0)) =
        Polynomial.modByMonic
          (coeffEval Polynomial.X (msgCoeffs [0x31, 0x32, 0x33]) * Polynomial.X ^ 8)
          (Polynomial.X ^ 8 + Polynomial.X ^ 7 + Polynomial.X ^ 6 + Polynomial.X ^ 4
            + Polynomial.X ^ 2 + 1) ∧
      [0x31, 0x32, 0x33].foldl crc8DvbS2 0 < 256 ∧
      [0x31, 0x32, 0x33, 0x34, 0x35, 0x36, 0x37, 0x38, 0x39].foldl crc8DvbS2 0 = 0xBC) :=
  ⟨by decide, C9_crc8DvbS2_reference [0x31, 0x32, 0x33] (by decide)⟩

/-- C10. Marshal round trip: for a `uint8`, a `uint16`, a `uint32`, a struct
`{uint8, uint16, uint32}` and a slice of four `uint16`, encoding the value with
`encodeArgs` and calling `Read` on a fresh frame holding those bytes, into a
destination of the same shape (whatever it held before), returns no error from
either call, stores exactly the value in the destination and leaves
`BytesRemaining()` at 0. -/
theorem C10_marshal_round_trip (code x8 x16 x32 a b c e0 e1 e2 e3 : Nat)
    (d d0 d1 d2 d3 : Nat)
    (h16 : x16 < 65536) (h32 : x32 < 4294967296) (hb : b < 65536) (hc : c < 4294967296)
    (he0 : e0 < 65536) (he1 : e1 < 65536) (he2 : e2 < 65536) (he3 : e3 < 65536) :
    marshalThenRead code (Arg.val (Value.uint8 x8)) (Arg.ptr (Value.uint8 d)) =
        (Result.ok (), Result.ok (), Arg.ptr (Value.uint8 x8), 0) ∧
      marshalThenRead code (Arg.val (Value.uint16 x16)) (Arg.ptr (Value.uint16 d)) =
        (Result.ok (), Result.ok (), Arg.ptr (Value.uint16 x16), 0) ∧
      marshalThenRead code (Arg.val (Value.uint32 x32)) (Arg.ptr (Value.uint32 d)) =
        (Result.ok (), Result.ok (), Arg.ptr (Value.uint32 x32), 0) ∧
      marshalThenRead code
          (Arg.val (Value.struct [Value.uint8 a, Value.uint16 b, Value.uint32 c]))
          (Arg.ptr (Value.struct [Value.uint8 d0, Value.uint16 d1, Value.uint32 d2])) =
        (Result.ok (), Result.ok (),
          Arg.ptr (Value.struct [Value.uint8 a, Value.uint16 b, Value.uint32 c]), 0) ∧
      marshalThenRead code
          (Arg.val (Value.slice
            [Value.uint16 e0, Value.uint16 e1, Value.uint16 e2, Value.uint16 e3]))
          (Arg.val (Value.slice
            [Value.uint16 d0, Value.uint16 d1, Value.uint16 d2, Value.uint16 d3])) =
        (Result.ok (), Result.ok (),
          Arg.val (Value.slice
            [Value.uint16 e0, Value.uint16 e1, Value.uint16 e2, Value.uint16 e3]), 0) := by
  refine ⟨?_, ?_, ?_, ?_, ?_⟩
  · simp [marshalThenRead, encodeArgs, encodeValue, MSPFrame.Read, MSPFrame.readPtr,
      MSPFrame.BytesRemaining]
  · simp [marshalThenRead, encodeArgs, encodeValue, MSPFrame.Read, MSPFrame.readPtr,
      MSPFrame.BytesRemaining]
    omega
  · simp [marshalThenRead, encodeArgs, encodeValue, MSPFrame.Read, MSPFrame.readPtr,
      MSPFrame.BytesRemaining]
    omega
  · simp [marshalThenRead, encodeArgs, encodeValue, encodeEach, MSPFrame.Read,
      MSPFrame.readPtr, MSPFrame.readEach, MSPFrame.BytesRemaining]
    omega
  · simp [marshalThenRead, encodeArgs, encodeValue, encodeEach, MSPFrame.Read,
      MSPFrame.readPtr, MSPFrame.readEach, MSPFrame.BytesRemaining]
    omega

theorem C10_marshal_round_trip_witness :
    513 < 65536 ∧ 67305985 < 4294967296 ∧ 770 < 65536 ∧ 117835012 < 4294967296 ∧
    1 < 65536 ∧ 256 < 65536 ∧ 65535 < 65536 ∧ 0 < 65536 ∧
    (marshalThenRead 1 (Arg.val (Value.uint8 7)) (Arg.ptr (Value.uint8 0)) =
        (Result.ok (), Result.ok (), Arg.ptr (Value.uint8 7), 0) ∧
      marshalThenRead 1 (Arg.val (Value.uint16 513)) (Arg.ptr (Value.uint16 0)) =
        (Result.ok (), Result.ok (), Arg.ptr (Value.uint16 513), 0) ∧
      marshalThenRead 1 (Arg.val (Value.uint32 67305985)) (Arg.ptr (Value.uint32 0)) =
        (Result.ok (), Result.ok (), Arg.ptr (Value.uint32 67305985), 0) ∧
      marshalThenRead 1
          (Arg.val (Value.struct [Value.uint8 1, Value.uint16 770, Value.uint32 117835012]))
          (Arg.ptr (Value.struct [Value.uint8 0, Value.uint16 0, Value.uint32 0])) =
        (Result.ok (), Result.ok (),
          Arg.ptr (Value.struct [Value.uint8 1, Value.uint16 770, Value.uint32 117835012]),
          0) ∧
      marshalThenRead 1
          (Arg.val (Value.slice
            [Value.uint16 1, Value.uint16 256, Value.uint16 65535, Value.uint16 0]))
          (Arg.val (Value.slice
            [Value.uint16 0, Value.uint16 0, Value.uint16 0, Value.uint16 0])) =
        (Result.ok (), Result.ok (),
          Arg.val (Value.slice
            [Value.uint16 1, Value.uint16 256, Value.uint16 65535, Value.uint16 0]), 0)) :=
  ⟨by decide, by decide, by decide, by decide, by decide, by decide, by decide, by decide,
    C10_marshal_round_trip 1 7 513 67305985 1 770 117835012 1 256 65535 0 0 0 0 0 0
      (by decide) (by decide) (by decide) (by decide) (by decide) (by decide) (by decide)
      (by decide)⟩

/-- C11, at a failing input.  `encodeArgs` with a slice `[1]` followed by the
`uint8` 2 returns no error and leaves only the byte 1 in the buffer: the `return
nil` in the slice and struct cases sits inside the loop over the arguments, so
the arguments after a slice or struct are dropped.  The encodings in argument
order would be `[1, 2]`, which is what the call gives when the integer comes
first.  The same loss reaches the wire through `WriteCmd`. -/
theorem C11_encodeArgs_drops_arguments :
    encodeArgs [] [Arg.val (Value.slice [Value.uint8 1]), Arg.val (Value.uint8 2)] =
        (Result.ok (), [1]) ∧
      Value.wireBytes (Value.slice [Value.uint8 1]) ++ Value.wireBytes (Value.uint8 2) =
        [1, 2] ∧
      encodeArgs [] [Arg.val (Value.uint8 2), Arg.val (Value.slice [Value.uint8 1])] =
        (Result.ok (), [2, 1]) ∧
      encodeArgs []
          [Arg.val (MSPSerialConfig.toValue (MSPSerialConfig.mk 0 513 2 3 4 5)),
            Arg.val (Value.uint8 9)] =
        (Result.ok (), [0, 1, 2, 2, 3, 4, 5]) ∧
      (WriteCmd (openOn []) 55
          [Arg.val (Value.slice [Value.uint8 1]), Arg.val (Value.uint8 2)]).2.1 =
        mspV1Encode 55 [1] := by
  decide

/-- C12. Read consumption and end of stream: take a frame whose cursor lies
within its payload (as in every frame the engine builds: the cursor starts at 0
and `Read` moves it only over bytes that exist) and a supported destination, a
pointer to an integer or to a struct of supported parts, or a slice of such
parts, of encoded size `n`.  `Read` returns `io.EOF` exactly when
`BytesRemaining() < n`.  Otherwise it returns no error, stores in the destination
the value that the bytes `Payload[pos .. pos+n)` encode (integers little-endian,
parts in order) and moves the cursor forward by `n`, so that `BytesRemaining()`
drops by `n`. -/
theorem C12_Read_consumption (f : MSPFrame) (v : Value) (elems : List Value)
    (hpos : f.payloadPos ≤ f.Payload.length)
    (hv : Value.readable v = true) (hes : Value.allReadable elems = true) :
    (((MSPFrame.Read f (Arg.ptr v)).1 = Result.error MSPError.EOF ↔
          MSPFrame.BytesRemaining f < (Value.encodedSize v : Int)) ∧
        (¬ MSPFrame.BytesRemaining f < (Value.encodedSize v : Int) →
          MSPFrame.Read f (Arg.ptr v) =
            (Result.ok (), { f with payloadPos := MSPFrame.payloadPos f + Value.encodedSize v },
              Arg.ptr (Value.fromBytes v (MSPFrame.window f (Value.encodedSize v)))))) ∧
      (((MSPFrame.Read f (Arg.val (Value.slice elems))).1 = Result.error MSPError.EOF ↔
          MSPFrame.BytesRemaining f < (Value.encodedSize (Value.slice elems) : Int)) ∧
        (¬ MSPFrame.BytesRemaining f < (Value.encodedSize (Value.slice elems) : Int) →
          MSPFrame.Read f (Arg.val (Value.slice elems)) =
            (Result.ok (),
              { f with
                payloadPos := MSPFrame.payloadPos f + Value.encodedSize (Value.slice elems) },
              Arg.val (Value.fromBytes (Value.slice elems)
                (MSPFrame.window f (Value.encodedSize (Value.slice elems))))))) ∧
      (∀ n : Nat, MSPFrame.BytesRemaining { f with payloadPos := MSPFrame.payloadPos f + n } =
        MSPFrame.BytesRemaining f - (n : Int)) := by
  refine ⟨Read_ptr_spec f v hpos hv, Read_slice_spec f elems hpos hes, ?_⟩
  intro n
  simp only [MSPFrame.BytesRemaining]
  omega

theorem C12_Read_consumption_witness :
    MSPFrame.payloadPos (MSPFrame.mk 7 [1, 2, 3] 1) ≤ (MSPFrame.Payload (MSPFrame.mk 7 [1, 2, 3] 1)).length ∧
    Value.readable (Value.uint16 0) = true ∧
    Value.allReadable [Value.uint8 0] = true ∧
    (
    (((MSPFrame.Read (MSPFrame.mk 7 [1, 2, 3] 1) (Arg.ptr (Value.uint16 0))).1 = Result.error MSPError.EOF ↔
          MSPFrame.BytesRemaining (MSPFrame.mk 7 [1, 2, 3] 1) < (Value.encodedSize (Value.uint16 0) : Int)) ∧
        (¬ MSPFrame.BytesRemaining (MSPFrame.mk 7 [1, 2, 3] 1) < (Value.encodedSize (Value.uint16 0) : Int) →
          MSPFrame.Read (MSPFrame.mk 7 [1, 2, 3] 1) (Arg.ptr (Value.uint16 0)) =
            (Result.ok (), { (MSPFrame.mk 7 [1, 2, 3] 1) with payloadPos := MSPFrame.payloadPos (MSPFrame.mk 7 [1, 2, 3] 1) + Value.encodedSize (Value.uint16 0) },
              Arg.ptr (Value.fromBytes (Value.uint16 0) (MSPFrame.window (MSPFrame.mk 7 [1, 2, 3] 1) (Value.encodedSize (Value.uint16 0))))))) ∧
      (((MSPFrame.Read (MSPFrame.mk 7 [1, 2, 3] 1) (Arg.val (Value.slice [Value.uint8 0]))).1 = Result.error MSPError.EOF ↔
          MSPFrame.BytesRemaining (MSPFrame.mk 7 [1, 2, 3] 1) < (Value.encodedSize (Value.slice [Value.uint8 0]) : Int)) ∧
        (¬ MSPFrame.BytesRemaining (MSPFrame.mk 7 [1, 2, 3] 1) < (Value.encodedSize (Value.slice [Value.uint8 0]) : Int) →
          MSPFrame.Read (MSPFrame.mk 7 [1, 2, 3] 1) (Arg.val (Value.slice [Value.uint8 0])) =
            (Result.ok (),
              { (MSPFrame.mk 7 [1, 2, 3] 1) with
                payloadPos := MSPFrame.payloadPos (MSPFrame.mk 7 [1, 2, 3] 1) + Value.encodedSize (Value.slice [Value.uint8 0]) },
              Arg.val (Value.fromBytes (Value.slice [Value.uint8 0])
                (MSPFrame.window (MSPFrame.mk 7 [1, 2, 3] 1) (Value.encodedSize (Value.slice [Value.uint8 0]))))))) ∧
      (∀ n : Nat, MSPFrame.BytesRemaining { (MSPFrame.mk 7 [1, 2, 3] 1) with payloadPos := MSPFrame.payloadPos (MSPFrame.mk 7 [1, 2, 3] 1) + n } =
        MSPFrame.BytesRemaining (MSPFrame.mk 7 [1, 2, 3] 1) - (n : Int))) :=
  ⟨by decide, by decide, by decide,
    C12_Read_consumption (MSPFrame.mk 7 [1, 2, 3] 1) (Value.uint16 0) [Value.uint8 0]
      (by decide) (by decide) (by decide)⟩

/-- C13, at a failing input.  Close an open session with success: the port
handle is nil.  A subsequent `ReadFrame` returns the ordinary error value
`io.EOF` and leaves the session as it is; it does not panic, although the comment
on `Close` says that reading from a closed MSP panics.  A subsequent `WriteCmd`
does panic. -/
theorem C13_ReadFrame_after_Close :
    Close (openOn [36, 77, 60, 0, 1, 1]) none =
        (none, { openOn [36, 77, 60, 0, 1, 1] with Port := none }) ∧
      ReadFrame (Close (openOn [36, 77, 60, 0, 1, 1]) none).2 =
        (Result.error MSPError.EOF, (Close (openOn [36, 77, 60, 0, 1, 1]) none).2) ∧
      (ReadFrame (Close (openOn [36, 77, 60, 0, 1, 1]) none).2).1 ≠ Result.panic ∧
      (WriteCmd (Close (openOn [36, 77, 60, 0, 1, 1]) none).2 1 []).1 = Result.panic := by
  decide

end Msp
